import Mathlib

/-!
Verification development for the cstdtohtml document-structuring pipeline.

The Python sources (`elements.py`, `parser.py`, `toc.py`, `pages.py`,
`utils.py`) are embedded shallowly: strings become `List Char` with
Python-faithful primitive operations, classes become structures or a flat
inductive with class-membership predicates, and code paths that raise an
exception return `none`.  Regular expressions that the source builds from
table-of-contents data are embedded by implementing the semantics of the
constructed pattern, with `.` inside interpolated text treated as the
regex wildcard (the source interpolates raw strings into patterns).
-/

/-- Python strings are modelled as lists of characters. -/
abbrev PyStr := List Char

/-- Conversion from Lean string literals into the model. -/
def pys (s : String) : PyStr := s.data

/-- Python `str.isspace` on a single character (the whitespace characters
relevant to this ASCII-based input). -/
def isPyWs (c : Char) : Bool :=
  c = ' ' || c = '\t' || c = '\n' || c = '\r' || c = '\x0b' || c = '\x0c'

/-- Python `str.lstrip()`. -/
def pyLstrip (s : PyStr) : PyStr := s.dropWhile isPyWs

/-- Python `str.rstrip()`. -/
def pyRstrip (s : PyStr) : PyStr := (s.reverse.dropWhile isPyWs).reverse

/-- Python `str.strip()`. -/
def pyStrip (s : PyStr) : PyStr := pyRstrip (pyLstrip s)

/-- Python `str.isspace()` (empty string gives `False`). -/
def pyIsSpace (s : PyStr) : Bool := !s.isEmpty && s.all isPyWs

/-- Python `str.isdigit()` restricted to ASCII digits (empty gives `False`). -/
def pyIsDigit (s : PyStr) : Bool := !s.isEmpty && s.all Char.isDigit

/-- Python `str.lower()` (ASCII; the inputs compared in the source are ASCII). -/
def pyLower (s : PyStr) : PyStr := s.map Char.toLower

/-- Boolean list-prefix test, used to model anchored literal matching. -/
def isPref : PyStr → PyStr → Bool
  | [], _ => true
  | _ :: _, [] => false
  | p :: ps, c :: cs => p = c && isPref ps cs

/-- Boolean contiguous-substring test: models Python `sub in s`. -/
def hasSub (pat : PyStr) : PyStr → Bool
  | [] => pat.isEmpty
  | c :: rest => isPref pat (c :: rest) || hasSub pat rest

/-- Helper for whitespace splitting: accumulates the current word reversed. -/
def splitWsAux : PyStr → PyStr → List PyStr
  | [], acc => if acc.isEmpty then [] else [acc.reverse]
  | c :: rest, acc =>
    if isPyWs c then
      if acc.isEmpty then splitWsAux rest [] else acc.reverse :: splitWsAux rest []
    else splitWsAux rest (c :: acc)

/-- Python `str.split()` with no arguments: split on whitespace runs,
dropping empty pieces. -/
def pySplitWs (s : PyStr) : List PyStr := splitWsAux s []

/-- Python `str.split(maxsplit=1)`. -/
def pySplitWs1 (s : PyStr) : List PyStr :=
  let t := s.dropWhile isPyWs
  if t.isEmpty then []
  else
    let w := t.takeWhile (fun c => !isPyWs c)
    let r := (t.dropWhile (fun c => !isPyWs c)).dropWhile isPyWs
    if r.isEmpty then [w] else [w, r]

/-- Python `str.split(maxsplit=2)`. -/
def pySplitWs2 (s : PyStr) : List PyStr :=
  let t := s.dropWhile isPyWs
  if t.isEmpty then []
  else
    let w1 := t.takeWhile (fun c => !isPyWs c)
    let r1 := (t.dropWhile (fun c => !isPyWs c)).dropWhile isPyWs
    if r1.isEmpty then [w1]
    else
      let w2 := r1.takeWhile (fun c => !isPyWs c)
      let r2 := (r1.dropWhile (fun c => !isPyWs c)).dropWhile isPyWs
      if r2.isEmpty then [w1, w2] else [w1, w2, r2]

/-- Python `str.split(sep)` for the two-space separator used by
`utils.groupwords`; keeps empty pieces like Python does. -/
def splitDoubleSpaceAux : PyStr → PyStr → List PyStr
  | [], acc => [acc.reverse]
  | ' ' :: ' ' :: rest, acc => acc.reverse :: splitDoubleSpaceAux rest []
  | c :: rest, acc => splitDoubleSpaceAux rest (c :: acc)

/-- `utils.groupwords`: split on two consecutive spaces, drop empty groups,
left-strip each group. -/
def groupwords (s : PyStr) : List PyStr :=
  ((splitDoubleSpaceAux s []).filter (fun g => !g.isEmpty)).map pyLstrip

/-- Python `str.split(sep, maxsplit=1)` for a single-character separator. -/
def pySplitChar1 (sep : Char) (s : PyStr) : List PyStr :=
  let a := s.takeWhile (fun c => c ≠ sep)
  match s.dropWhile (fun c => c ≠ sep) with
  | [] => [s]
  | _ :: r => [a, r]

/-- Value of a list of ASCII digit characters. -/
def digitsVal (ds : PyStr) : Int :=
  ds.foldl (fun a c => a * 10 + ((c.toNat : Int) - 48)) 0

/-- Python `int(str)`: optional whitespace, optional sign, one or more
digits, optional whitespace; `none` models the `ValueError`.
(Underscore digit separators are not used by this document pipeline.) -/
def pyIntOpt (s : PyStr) : Option Int :=
  let t1 := s.dropWhile isPyWs
  let signedTail : Bool × PyStr :=
    match t1 with
    | '-' :: r => (true, r)
    | '+' :: r => (false, r)
    | r => (false, r)
  let ds := signedTail.2.takeWhile Char.isDigit
  let rest := signedTail.2.dropWhile Char.isDigit
  if ds.isEmpty then none
  else if !rest.all isPyWs then none
  else some ((if signedTail.1 then -1 else 1) * digitsVal ds)

/-- `utils.isint`. -/
def isint (s : PyStr) : Bool := (pyIntOpt s).isSome

/-- Python `str.find(sub, start)`: smallest index `≥ start` at which `sub`
occurs, or `-1`.  Only called with a nonempty `sub` by the source. -/
def pyFindAux (sub : PyStr) : PyStr → Nat → Option Nat
  | [], _ => none
  | c :: rest, i => if isPref sub (c :: rest) then some i else pyFindAux sub rest (i + 1)

/-- Python `str.find(sub, start)` wrapper returning `-1` on failure. -/
def pyFindFrom (s sub : PyStr) (start : Nat) : Int :=
  match pyFindAux sub (s.drop start) start with
  | some i => (i : Int)
  | none => -1

/-- Python `s[i]` for a nonnegative index: `none` models `IndexError`. -/
def pyCharAt (s : PyStr) (i : Nat) : Option Char := s.get? i

/-- Number of leading whitespace characters: `len(line) - len(line.lstrip())`. -/
def leadWs (s : PyStr) : Nat := (s.takeWhile isPyWs).length

/-!  ## TOC matcher (`toc.py`)

The matcher state holds the two stacks built by `TOCMatcher.__init__`,
with the head of each list playing the role of the Python list's end
(the stack top popped by `list.pop()`).  A title-stack entry keeps the
`(title, key)` pair from which `maketitleregex` builds its pattern; a
heading-stack entry keeps the key from which `makeheadingregex` builds
its pattern (`none` for the keyless sentinel / keyless titles). -/

structure TOCMatcher where
  titlestack : List (PyStr × Option PyStr)
  headingstack : List (Option PyStr)
deriving DecidableEq

/-- `TOCMatcher.__init__` from the TOC's `(title, key)` list in document
order.  Python reverses the list and pops from the end, so the head of
each stack here is the first document-order entry; the extra `None`
pushed last by the source is the initial heading-stack top. -/
def tocMatcherInit (titles : List (PyStr × Option PyStr)) : TOCMatcher :=
  { titlestack := titles
    headingstack := none :: titles.map Prod.snd }

/-- Matching of text interpolated into a regular expression: every
character is literal except `.`, which the regex engine treats as a
wildcard for any character (the lines matched contain no newline).
Returns the remainder of the line after the pattern. -/
def matchLit : PyStr → PyStr → Option PyStr
  | [], s => some s
  | _ :: _, [] => none
  | p :: ps, c :: cs => if p = '.' ∨ p = c then matchLit ps cs else none

/-- `maketitleregex(title, key).fullmatch(line)` as a boolean.

The four pattern shapes of the source are implemented directly; leading
`\s*` / `\s+` are resolved greedily, which agrees with the regex because
keys and titles begin with a non-whitespace character. -/
def titleFullMatch (entry : PyStr × Option PyStr) (line : PyStr) : Bool :=
  match entry.2 with
  | none =>
    if entry.1.take 6 = pys "Annex " then
      match line with
      | [] => false
      | c :: _ =>
        isPyWs c &&
          (match matchLit (entry.1.take 7) (line.dropWhile isPyWs) with
           | some r => r.isEmpty
           | none => false)
    else
      match matchLit entry.1 (line.dropWhile isPyWs) with
      | some r => r.isEmpty
      | none => false
  | some key =>
    if key.contains '.' then
      match matchLit key (line.dropWhile isPyWs) with
      | some (c :: r1) =>
        isPyWs c &&
          (match matchLit entry.1 ((c :: r1).dropWhile isPyWs) with
           | some r => r.isEmpty
           | none => false)
      | _ => false
    else
      match matchLit key (line.dropWhile isPyWs) with
      | some ('.' :: r1) =>
        (match r1 with
         | c :: _ =>
           isPyWs c &&
             (match matchLit entry.1 (r1.dropWhile isPyWs) with
              | some r => r.isEmpty
              | none => false)
         | [] => false)
      | _ => false

/-- After the key of a heading pattern, `(\.\d+)+($|\s)`: one or more
groups of a dot followed by digits, then end of line or whitespace.
The fuel argument only bounds the recursion (each step consumes at least
two characters, so any fuel above the length is enough). -/
def headingGroupsTailF : Nat → PyStr → Bool
  | 0, _ => false
  | _ + 1, [] => true
  | fuel + 1, '.' :: rest =>
    let ds := rest.takeWhile Char.isDigit
    if ds.isEmpty then false else headingGroupsTailF fuel (rest.dropWhile Char.isDigit)
  | _ + 1, c :: _ => isPyWs c

/-- The tail matcher with enough fuel for its argument. -/
def headingGroupsTail (s : PyStr) : Bool := headingGroupsTailF (s.length + 1) s

/-- `makeheadingregex(key).match(line)` as a boolean:
`^\s*{key}(\.\d+)+($|\s)` as a prefix match. -/
def headingMatch (key : PyStr) (line : PyStr) : Bool :=
  match matchLit key (line.dropWhile isPyWs) with
  | none => false
  | some r =>
    match r with
    | '.' :: rest =>
      let ds := rest.takeWhile Char.isDigit
      if ds.isEmpty then false else headingGroupsTail (rest.dropWhile Char.isDigit)
    | _ => false

/-- `TOCMatcher.matchtitle`.  Returns the boolean result together with
the new state; `none` models the `IndexError` of popping an empty
heading stack (unreachable from `tocMatcherInit` states). -/
def matchtitleM (m : TOCMatcher) (line : PyStr) : Option (Bool × TOCMatcher) :=
  match m.titlestack with
  | [] => some (false, m)
  | t :: ts =>
    if titleFullMatch t line then
      match m.headingstack with
      | [] => none
      | _ :: hs => some (true, ⟨ts, hs⟩)
    else some (false, m)

/-- `TOCMatcher.matchheading`.  The state is returned alongside the
boolean to make the frame property a statement about the function. -/
def matchheadingM (m : TOCMatcher) (line : PyStr) : Bool × TOCMatcher :=
  match m.headingstack with
  | some key :: _ =>
    if headingMatch key line then
      if isPref (pys "6.7.3.2 through 6.7.3.6") line then (false, m) else (true, m)
    else (false, m)
  | _ => (false, m)

/-!  ## Elements (`elements.py`)

The class hierarchy is flattened into one inductive; class-membership
tests (`isinstance` against a base class, `type(x) is C`) become boolean
predicates.  Footnote-reference sets become duplicate-free lists in
insertion order. -/

inductive Element where
  | Paragraph (content : PyStr) (fns : List Nat)
  | NumberedParagraph (number : Int) (content : PyStr) (fns : List Nat)
  | NoteParagraph (number : Int) (content : PyStr) (fns : List Nat)
  | NoteNumberParagraph (number notenumber : Int) (content : PyStr) (fns : List Nat)
  | NoteToEntryParagraph (number notenumber : Int) (content : PyStr) (fns : List Nat)
  | ExampleParagraph (number : Int) (content : PyStr) (fns : List Nat)
  | ExampleNumberParagraph (number examplenumber : Int) (content : PyStr) (fns : List Nat)
  | UnorderedListItem (level indentCol : Nat) (content : PyStr) (fns : List Nat)
  | OrderedListItem (number : Int) (content : PyStr) (fns : List Nat)
  | ValueDefinition (value : PyStr) (content : PyStr) (fns : List Nat)
  | NumberedValueDefinition (number : Int) (value : PyStr) (content : PyStr) (fns : List Nat)
  | TitleHeading (content : PyStr)
  | NumberedHeading (key : PyStr)
  | NumberedTitleHeading (key : PyStr) (content : PyStr)
  | Code (lines : List PyStr) (fns : List Nat)
  | NumberedCode (number : Int) (lines : List PyStr) (fns : List Nat)
deriving DecidableEq

/-- `isinstance(e, elements.Text)`. -/
def Element.isTextIsh : Element → Bool
  | .Paragraph .. | .NumberedParagraph .. | .NoteParagraph ..
  | .NoteNumberParagraph .. | .NoteToEntryParagraph ..
  | .ExampleParagraph .. | .ExampleNumberParagraph ..
  | .UnorderedListItem .. | .OrderedListItem ..
  | .ValueDefinition .. | .NumberedValueDefinition .. => true
  | _ => false

/-- `isinstance(e, elements.Code)`. -/
def Element.isCodeIsh : Element → Bool
  | .Code .. | .NumberedCode .. => true
  | _ => false

/-- `isinstance(e, elements.ValueDefinition)`. -/
def Element.isVDIsh : Element → Bool
  | .ValueDefinition .. | .NumberedValueDefinition .. => true
  | _ => false

/-- `isinstance(e, elements.OrderedListItem)`. -/
def Element.isOLIIsh : Element → Bool
  | .OrderedListItem .. => true
  | _ => false

/-- `isinstance(e, elements.UnorderedListItem)`. -/
def Element.isULIIsh : Element → Bool
  | .UnorderedListItem .. => true
  | _ => false

/-- `type(e) is elements.Paragraph` (strict). -/
def Element.isParagraphStrict : Element → Bool
  | .Paragraph .. => true
  | _ => false

/-- `type(e) is elements.Code` (strict). -/
def Element.isCodeStrict : Element → Bool
  | .Code .. => true
  | _ => false

/-- The heading classes, which carry no footnote set and no `addcontent`. -/
def Element.isHeadingKind : Element → Bool
  | .TitleHeading .. | .NumberedHeading .. | .NumberedTitleHeading .. => true
  | _ => false

/-- The `content` attribute of text-bearing elements (headings included);
`[]` for code elements, which store `lines` instead. -/
def Element.contentOf : Element → PyStr
  | .Paragraph c _ | .NumberedParagraph _ c _ | .NoteParagraph _ c _
  | .NoteNumberParagraph _ _ c _ | .NoteToEntryParagraph _ _ c _
  | .ExampleParagraph _ c _ | .ExampleNumberParagraph _ _ c _
  | .UnorderedListItem _ _ c _ | .OrderedListItem _ c _
  | .ValueDefinition _ c _ | .NumberedValueDefinition _ _ c _
  | .TitleHeading c | .NumberedTitleHeading _ c => c
  | .NumberedHeading _ => []
  | .Code _ _ | .NumberedCode _ _ _ => []

/-- The `lines` attribute of code elements. -/
def Element.linesOf : Element → List PyStr
  | .Code ls _ | .NumberedCode _ ls _ => ls
  | _ => []

/-- The `footnotes` attribute (empty for the heading classes, which have
none). -/
def Element.fnsOf : Element → List Nat
  | .Paragraph _ f | .NumberedParagraph _ _ f | .NoteParagraph _ _ f
  | .NoteNumberParagraph _ _ _ f | .NoteToEntryParagraph _ _ _ f
  | .ExampleParagraph _ _ f | .ExampleNumberParagraph _ _ _ f
  | .UnorderedListItem _ _ _ f | .OrderedListItem _ _ f
  | .ValueDefinition _ _ f | .NumberedValueDefinition _ _ _ f
  | .Code _ f | .NumberedCode _ _ f => f
  | _ => []

/-- `set.add`: append if absent (insertion-ordered set model). -/
def fnInsert (s : List Nat) (n : Nat) : List Nat :=
  if n ∈ s then s else s ++ [n]

/-- In-place set union `a |= b` (insertion-ordered set model). -/
def fnUnion (a b : List Nat) : List Nat := b.foldl fnInsert a

/-- `HTTPBREAKRE.search(content)`: the regex `https?:(//)?$` has exactly
four possible suffix matches. -/
def httpBreak (s : PyStr) : Bool :=
  isPref (pys "http:").reverse s.reverse || isPref (pys "https:").reverse s.reverse ||
  isPref (pys "http://").reverse s.reverse || isPref (pys "https://").reverse s.reverse

/-- The `NOSTITCHING` tuple of hyphenated phrases kept intact. -/
def NOSTITCHING : List PyStr :=
  [pys "60559-", pys "bit-", pys "const-", pys "decimal-", pys "derived-",
   pys "encoding-to-", pys "end-of-", pys "execution-", pys "floating-",
   pys "function-", pys "half-", pys "implementation-", pys "little-",
   pys "locale-", pys "new-", pys "non-", pys "null-", pys "pointer-to-",
   pys "real-", pys "runtime-", pys "single-", pys "storage-",
   pys "string-from-", pys "type-", pys "va-opt-"]

/-- `Text.addcontent` on the `content` string: the continuation-merging
policy (newline / first-word / dehyphenate).  `none` models the
exceptions of the source (`split()[-1]` on an all-whitespace string and
unpacking an empty `split(maxsplit=1)` result). -/
def addcontentStr (selfc content : PyStr) : Option PyStr :=
  if selfc.isEmpty then some (pyStrip content)
  else
    let firstWord : PyStr → Option PyStr := fun base =>
      match pySplitWs1 content with
      | [] => none
      | [_] => some (base ++ pyStrip content)
      | w :: rest :: _ => some (base ++ pyStrip w ++ '\n' :: pyStrip rest)
    if httpBreak selfc then firstWord selfc
    else if selfc.getLast? = some '-' then
      match (pySplitWs selfc).getLast? with
      | none => none
      | some lastWord =>
        if pyLower lastWord ∈ NOSTITCHING then firstWord selfc
        else firstWord selfc.dropLast
    else some (selfc ++ '\n' :: pyStrip content)

/-- `Text.addcontent` / `Code.addcontent` lifted to elements, rebuilding
the same variant.  The heading classes have no `addcontent` method
(calling it would be an `AttributeError`), hence `none`. -/
def Element.addcontent (e : Element) (s : PyStr) : Option Element :=
  match e with
  | .Code ls f => some (.Code (ls ++ [pyRstrip s]) f)
  | .NumberedCode n ls f => some (.NumberedCode n (ls ++ [pyRstrip s]) f)
  | .Paragraph c f => (addcontentStr c s).map (fun c2 => .Paragraph c2 f)
  | .NumberedParagraph n c f => (addcontentStr c s).map (fun c2 => .NumberedParagraph n c2 f)
  | .NoteParagraph n c f => (addcontentStr c s).map (fun c2 => .NoteParagraph n c2 f)
  | .NoteNumberParagraph n m c f =>
    (addcontentStr c s).map (fun c2 => .NoteNumberParagraph n m c2 f)
  | .NoteToEntryParagraph n m c f =>
    (addcontentStr c s).map (fun c2 => .NoteToEntryParagraph n m c2 f)
  | .ExampleParagraph n c f => (addcontentStr c s).map (fun c2 => .ExampleParagraph n c2 f)
  | .ExampleNumberParagraph n m c f =>
    (addcontentStr c s).map (fun c2 => .ExampleNumberParagraph n m c2 f)
  | .UnorderedListItem l i c f =>
    (addcontentStr c s).map (fun c2 => .UnorderedListItem l i c2 f)
  | .OrderedListItem n c f => (addcontentStr c s).map (fun c2 => .OrderedListItem n c2 f)
  | .ValueDefinition v c f => (addcontentStr c s).map (fun c2 => .ValueDefinition v c2 f)
  | .NumberedValueDefinition n v c f =>
    (addcontentStr c s).map (fun c2 => .NumberedValueDefinition n v c2 f)
  | .TitleHeading _ | .NumberedHeading _ | .NumberedTitleHeading _ _ => none

/-- Replace the footnote set of an element (identity on headings). -/
def Element.withFns (e : Element) (f : List Nat) : Element :=
  match e with
  | .Paragraph c _ => .Paragraph c f
  | .NumberedParagraph n c _ => .NumberedParagraph n c f
  | .NoteParagraph n c _ => .NoteParagraph n c f
  | .NoteNumberParagraph n m c _ => .NoteNumberParagraph n m c f
  | .NoteToEntryParagraph n m c _ => .NoteToEntryParagraph n m c f
  | .ExampleParagraph n c _ => .ExampleParagraph n c f
  | .ExampleNumberParagraph n m c _ => .ExampleNumberParagraph n m c f
  | .UnorderedListItem l i c _ => .UnorderedListItem l i c f
  | .OrderedListItem n c _ => .OrderedListItem n c f
  | .ValueDefinition v c _ => .ValueDefinition v c f
  | .NumberedValueDefinition n v c _ => .NumberedValueDefinition n v c f
  | .Code ls _ => .Code ls f
  | .NumberedCode n ls _ => .NumberedCode n ls f
  | e => e

/-!  ## Line classifier (`parser.py`)

`LineParser` state and `parseline`.  The dispatch of
`_parselinewithoutindent` is split into three definitions mirroring its
fall-through points: the main chain, the indented-text block
(`line[:4].isspace()`), and the tail (forced code / regular text /
syntax mode). -/

/-- First words of the first lines of Table F.2 in N3220 F.3p1. -/
def N3220F3P1STARTS : List PyStr :=
  [pys "setPayload", pys "convertFromHexCharacter", pys "restoreModes"]

/-- Paragraphs that end a Syntax section. -/
def AFTERSYNTAX : List PyStr :=
  [pys "Constraints", pys "Description", pys "Semantics"]

structure LineParser where
  elements : List Element
  inelement : Bool
  indentP : Nat
  insyntax : Nat
  inN3220 : Bool
deriving DecidableEq

/-- `LineParser.__init__(indent)`. -/
def LineParser.init (indent : Nat) : LineParser :=
  { elements := [], inelement := false, indentP := indent, insyntax := 0, inN3220 := false }

/-- Append a freshly constructed element and set the continuation flag. -/
def pushE (st : LineParser) (tm : TOCMatcher) (e : Element) (inel : Bool) :
    Option (LineParser × TOCMatcher) :=
  some ({ st with elements := st.elements ++ [e], inelement := inel }, tm)

/-- Replace the last element in place (mutation of `self.elements[-1]`). -/
def replE (st : LineParser) (tm : TOCMatcher) (e : Element) (inel : Bool) :
    Option (LineParser × TOCMatcher) :=
  some ({ st with elements := st.elements.dropLast ++ [e], inelement := inel }, tm)

/-- `elements.ValueDefinition(value, content)`: `none` models the
`IndexError` on an empty stripped value. -/
def mkVDElem (v c : PyStr) : Option Element :=
  match pyStrip v with
  | [] => none
  | value =>
    some (.ValueDefinition (if value.getLast? = some ':' then value.dropLast else value)
      (pyStrip c) [])

/-- `re.match(toc.KEYREGEX, s)` as a boolean:
`(?:(?:\d+)|(?:[A-Z]\b))(?:\.\d+)+` anchored at the start, remainder
free.  Existence of a match reduces to: the maximal leading digit run
(or a single uppercase letter) is followed by a dot and a digit. -/
def matchKeyRegex (s : PyStr) : Bool :=
  match s with
  | [] => false
  | c :: rest =>
    if c.isDigit then
      match (c :: rest).dropWhile Char.isDigit with
      | '.' :: d :: _ => d.isDigit
      | _ => false
    else if c.isUpper then
      match rest with
      | '.' :: d :: _ => d.isDigit
      | _ => false
    else false

/-- `re.match(fr"{toc.CHAPTERREGEX}\.", s)` as a boolean: digits then a
literal dot, anchored at the start. -/
def matchChapterDot (s : PyStr) : Bool :=
  match s with
  | [] => false
  | c :: rest =>
    c.isDigit &&
      (match (c :: rest).dropWhile Char.isDigit with
       | '.' :: _ => true
       | _ => false)

/-- `maybepreviouselement(previouselement, line)` from the indented-text
branch; `none` models the `IndexError` of `line[indent]`. -/
def maybePrevious (previous : Option Element) (line : PyStr) : Option Bool :=
  match previous with
  | none => some false
  | some e =>
    if e.isCodeIsh then some true
    else if e.isVDIsh then some true
    else if e.isOLIIsh then some true
    else
      match e with
      | .UnorderedListItem _ ind _ _ =>
        if pyIsSpace (line.take (ind + 2)) then
          match pyCharAt line (ind + 2) with
          | none => none
          | some ch => some (!isPyWs ch)
        else some false
      | _ => some false

/-- The tail of `_parselinewithoutindent`: forced-code fixes, regular
text continuation, Syntax-mode handling. -/
def parseRegular (st : LineParser) (tm : TOCMatcher) (line : PyStr) :
    Option (LineParser × TOCMatcher) :=
  let previous := st.elements.getLast?
  if hasSub (pys "/* Yields a") line || st.inN3220 then
    match previous with
    | some (.Code ls f) => replE st tm (.Code (ls ++ [line]) f) true
    | some (.NumberedCode n ls f) => replE st tm (.NumberedCode n (ls ++ [line]) f) true
    | _ => pushE st tm (.Code [pyRstrip line] []) true
  else if st.inelement &&
      (match previous with
       | some p => p.isTextIsh && !p.isVDIsh
       | none => false) then
    match previous with
    | some prev =>
      match prev.addcontent line with
      | none => none
      | some e2 => replE st tm e2 st.inelement
    | none => none
  else
    let sy1 := if st.insyntax ≠ 0 && line ∈ AFTERSYNTAX then 0 else st.insyntax
    if sy1 ≠ 0 then
      some ({ st with
                elements := st.elements ++ [.Code [pyRstrip line] []]
                insyntax := 2
                inelement := true }, tm)
    else
      some ({ st with
                elements := st.elements ++ [.Paragraph (pyStrip line) []]
                insyntax := if line = pys "Syntax" then 1 else 0
                inelement := true }, tm)

/-- The `line[:4].isspace()` block of `_parselinewithoutindent`, falling
through to `parseRegular`. -/
def parseIndentedBlock (st : LineParser) (tm : TOCMatcher) (line : PyStr) :
    Option (LineParser × TOCMatcher) :=
  let previous := st.elements.getLast?
  if pyIsSpace (line.take 4) then
    match
      (if st.inelement then maybePrevious previous line else some false) with
    | none => none
    | some mp =>
      if st.inelement && mp then
        match previous with
        | some prev =>
          match prev.addcontent line with
          | none => none
          | some e2 => replE st tm e2 st.inelement
        | none => none
      else if !st.elements.isEmpty &&
          (match previous with
           | some (.UnorderedListItem lv _ _ _) => decide (1 < lv)
           | _ => false) then
        pushE st tm (.Paragraph (pyStrip line) []) true
      else if pyIsSpace (line.take 7) then
        match previous with
        | some (.Code ls f) => replE st tm (.Code (ls ++ [[], line]) f) true
        | some (.NumberedCode n ls f) => replE st tm (.NumberedCode n (ls ++ [[], line]) f) true
        | _ => pushE st tm (.Code [pyRstrip line] []) true
      else parseRegular st tm line
  else parseRegular st tm line

/-- The value-definition tail of `_parselinewithoutindent` for a two-way
split `[v, c]`, falling through to the indented-block handling. -/
def parseVDChain (st : LineParser) (tm : TOCMatcher) (v c : PyStr)
    (groups : List PyStr) (line : PyStr) : Option (LineParser × TOCMatcher) :=
  match pyCharAt line 3 with
  | none => none
  | some c3 =>
    if isPyWs c3 && isint (line.take 3) then
      match mkVDElem v c with
      | none => none
      | some e => pushE st tm e true
    else if isPyWs c3 && line.head? = some '−' && isint ((line.drop 1).take 2) then
      match mkVDElem (v.map (fun ch => if ch = '−' then '-' else ch)) c with
      | none => none
      | some e => pushE st tm e true
    else if isPref (pys "__") v && isPref (pys "__").reverse v.reverse then
      match mkVDElem v c with
      | none => none
      | some e => pushE st tm e true
    else if line.head? = some '%' && 2 ≤ v.length then
      match mkVDElem v c with
      | none => none
      | some e => pushE st tm e true
    else if !pyIsSpace (line.take 2) && groups.length = 2 then
      match groups with
      | [g0, g1] =>
        if 12 ≤ pyFindFrom (pyLstrip line) g1 g0.length &&
            pyFindFrom (pyLstrip line) g1 g0.length ≤ 15 &&
            pyIsSpace (((pyLstrip line).drop g0.length).take 4) then
          match mkVDElem g0 g1 with
          | none => none
          | some e => pushE st tm e true
        else parseIndentedBlock st tm line
      | _ => parseIndentedBlock st tm line
    else parseIndentedBlock st tm line

/-- The list-item / value-definition dispatch of `_parselinewithoutindent`. -/
def parseListOrVD (st : LineParser) (tm : TOCMatcher) (splits groups : List PyStr)
    (line : PyStr) : Option (LineParser × TOCMatcher) :=
  match splits with
  | [] => none
  | s0 :: _ =>
    if s0.head? = some '—' || s0.head? = some '•' then
      match splits with
      | [b, c] =>
        if b = pys "—" then pushE st tm (.UnorderedListItem 1 (leadWs line) (pyStrip c) []) true
        else if b = pys "•" then
          pushE st tm (.UnorderedListItem 2 (leadWs line) (pyStrip c) []) true
        else none
      | _ => none
    else if pyIsDigit s0.dropLast && s0.getLast? = some '.' then
      match splits with
      | [n, c] =>
        match pyIntOpt n.dropLast with
        | none => none
        | some k => pushE st tm (.OrderedListItem k (pyStrip c) []) true
      | _ => none
    else
      match splits with
      | [v, c] => parseVDChain st tm v c groups line
      | _ => parseIndentedBlock st tm line

/-- `LineParser._parselinewithoutindent`. -/
def parseNoIndent (st0 : LineParser) (tm : TOCMatcher) (line : PyStr) :
    Option (LineParser × TOCMatcher) :=
  let splits := pySplitWs1 line
  let groups := groupwords line
  match
    (if hasSub (pys "Table F.2: Operation binding") line then some ({ st0 with inN3220 := true })
     else
       match splits with
       | [] => none
       | s0 :: _ =>
         if s0 ∈ N3220F3P1STARTS then some ({ st0 with inN3220 := true }) else some st0) with
  | none => none
  | some st =>
  if isPref (pys "Forward references: ") (pyLstrip line) then
    pushE st tm (.Paragraph (pyStrip line) []) true
  else if isPref (pys "o,u,x,X ") line then
    match splits with
    | [v, c] =>
      match mkVDElem v c with
      | none => none
      | some e => pushE st tm e true
    | _ => none
  else
    match matchtitleM tm line with
    | none => none
    | some (tb, tm) =>
    if tb then
      match splits with
      | [] => none
      | s0 :: _ =>
        if matchKeyRegex s0 || matchChapterDot s0 then
          match splits with
          | [k, t] => pushE st tm (.NumberedTitleHeading (pyStrip k) (pyStrip t)) false
          | _ => none
        else pushE st tm (.TitleHeading (pyStrip line)) false
    else if (matchheadingM tm line).1 && !st.inN3220 then
      match splits with
      | [k, t] => pushE st tm (.NumberedTitleHeading (pyStrip k) (pyStrip t)) false
      | _ => pushE st tm (.NumberedHeading (pyStrip line)) false
    else parseListOrVD st tm splits groups line

/-- `LineParser._parselinewithindent`. -/
def parseWithIndent (st : LineParser) (tm : TOCMatcher) (line : PyStr) (indent : Nat) :
    Option (LineParser × TOCMatcher) :=
  if pyIsSpace (line.take indent) then parseNoIndent st tm (line.drop indent)
  else
    match pyIntOpt (line.take indent) with
    | none => none
    | some num =>
      let unindented := line.drop indent
      if pyIsSpace (unindented.take 7) || st.insyntax = 1 then
        pushE st tm (.NumberedCode num [pyRstrip unindented] []) true
      else
        let st1 : LineParser := { st with insyntax := 0, inN3220 := false }
        let splits := pySplitWs2 unindented
        let firstword := splits.headD []
        let s1 := splits.getD 1 []
        let secondisint := decide (2 ≤ splits.length) && isint s1
        let i2 := (pyIntOpt s1).getD 0
        let joinFrom2 := (splits.getD 2 [])
        let joinFrom1 :=
          match splits with
          | [] => []
          | [_] => []
          | [_, b] => b
          | _ :: b :: s2 :: _ => b ++ ' ' :: s2
        let exampleElse : Option Element :=
          some (if firstword = pys "EXAMPLE" then
                  if secondisint then .ExampleNumberParagraph num i2 (pyStrip joinFrom2) []
                  else .ExampleParagraph num (pyStrip joinFrom1) []
                else .NumberedParagraph num (pyStrip unindented) [])
        let newelem : Option Element :=
          if firstword = pys "NOTE" then
            some (if secondisint then .NoteNumberParagraph num i2 (pyStrip joinFrom2) []
                  else .NoteParagraph num (pyStrip joinFrom1) [])
          else if firstword = pys "Note" && secondisint then
            match splits.get? 2 with
            | none => none
            | some s2 =>
              if isPref (pys "to entry: ") s2 then
                some (.NoteToEntryParagraph num i2 (pyStrip (s2.drop 10)) [])
              else exampleElse
          else exampleElse
        match newelem with
        | none => none
        | some e => pushE st1 tm e true

/-- `LineParser.parseline`. -/
def parseline (st : LineParser) (tm : TOCMatcher) (line : PyStr)
    (forceindent : Option Nat) : Option (LineParser × TOCMatcher) :=
  let indent := forceindent.getD st.indentP
  if line.isEmpty then some ({ st with inelement := false }, tm)
  else if indent = 0 then parseNoIndent st tm line
  else parseWithIndent st tm line indent

/-!  ## Structured pages (`pages.py`) -/

/-- The footnote marker pattern `^\s+\d+\)\s?\S` as a prefix match. -/
def footnoteMarkRe (line : PyStr) : Bool :=
  match line with
  | [] => false
  | c :: _ =>
    isPyWs c &&
      (let t := line.dropWhile isPyWs
       !(t.takeWhile Char.isDigit).isEmpty &&
         (match t.dropWhile Char.isDigit with
          | ')' :: u =>
            (match u with
             | [] => false
             | c2 :: u2 =>
               if isPyWs c2 then
                 match u2 with
                 | c3 :: _ => !isPyWs c3
                 | [] => false
               else true)
          | _ => false))

structure SPage where
  elements : List Element
  footnotes : List (Nat × List Element)
deriving DecidableEq

/-- The body loop of `StructuredPage.__init__`: parse lines until the
first footnote marker, returning the remaining lines. -/
def spBodyLoop : LineParser → TOCMatcher → List PyStr →
    Option (LineParser × TOCMatcher × List PyStr)
  | lp, tm, [] => some (lp, tm, [])
  | lp, tm, l :: rest =>
    if footnoteMarkRe l then some (lp, tm, l :: rest)
    else
      match parseline lp tm l none with
      | none => none
      | some (lp2, tm2) => spBodyLoop lp2 tm2 rest

/-- Python dict assignment `m[k] = v` on an insertion-ordered
association list. -/
def assocSet (m : List (Nat × LineParser)) (k : Nat) (v : LineParser) :
    List (Nat × LineParser) :=
  match m with
  | [] => [(k, v)]
  | (k2, v2) :: rest => if k2 = k then (k, v) :: rest else (k2, v2) :: assocSet rest k v

/-- Python dict lookup `m[k]`; `none` models `KeyError`. -/
def assocGet (m : List (Nat × LineParser)) (k : Nat) : Option LineParser :=
  match m with
  | [] => none
  | (k2, v2) :: rest => if k2 = k then some v2 else assocGet rest k

/-- The footnote loop of `StructuredPage.__init__`. -/
def spFnLoop : List (Nat × LineParser) → Option Nat → TOCMatcher → Nat → List PyStr →
    Option (List (Nat × LineParser) × TOCMatcher)
  | fns, _, tm, _, [] => some (fns, tm)
  | fns, last, tm, indent, l :: rest =>
    if footnoteMarkRe l then
      match pySplitChar1 ')' l with
      | [a, b] =>
        match pyIntOpt a with
        | some (Int.ofNat k) =>
          (match parseline (LineParser.init indent) tm b (some 0) with
           | none => none
           | some (p2, tm2) => spFnLoop (assocSet fns k p2) (some k) tm2 indent rest)
        | _ => none
      | _ => none
    else
      match last with
      | none => none
      | some k =>
        match assocGet fns k with
        | none => none
        | some p =>
          match parseline p tm l none with
          | none => none
          | some (p2, tm2) => spFnLoop (assocSet fns k p2) last tm2 indent rest

/-- `StructuredPage.__init__` from the page's content lines and indent. -/
def mkStructuredPage (content : List PyStr) (indent : Nat) (tm : TOCMatcher)
    (startline : Nat) : Option (SPage × TOCMatcher) :=
  match spBodyLoop (LineParser.init indent) tm (content.drop startline) with
  | none => none
  | some (lp, tm1, remaining) =>
    if remaining.isEmpty then some ({ elements := lp.elements, footnotes := [] }, tm1)
    else
      match spFnLoop [] none tm1 indent remaining with
      | none => none
      | some (fns, tm2) =>
        some ({ elements := lp.elements
                footnotes := fns.map (fun kv => (kv.1, kv.2.elements)) }, tm2)

/-!  ## Page merger (`pages.py`, `mergepages`) -/

/-- The footnote-merging loop: raises (`none`) on a repeated id. -/
def footMergeLoop : List (Nat × List Element) → List (Nat × List Element) →
    Option (List (Nat × List Element))
  | acc, [] => some acc
  | acc, (k, v) :: rest =>
    if k ∈ acc.map Prod.fst then none else footMergeLoop (acc ++ [(k, v)]) rest

/-- Concatenate the (possibly repaired) element lists and merge footnotes. -/
def mergeFinish (merge : SPage) (pageElems : List Element)
    (pageFns : List (Nat × List Element)) : Option SPage :=
  match footMergeLoop merge.footnotes pageFns with
  | none => none
  | some fns => some { elements := merge.elements ++ pageElems, footnotes := fns }

/-- `addcontent` folded over the lines of a cut code block
(the `ValueDefinition` + `Code` repair). -/
def addLinesFold : Element → List PyStr → Option Element
  | e, [] => some e
  | e, l :: ls =>
    match e.addcontent l with
    | none => none
    | some e2 => addLinesFold e2 ls

/-- One iteration of the `mergepages` loop: the three page-boundary
repairs followed by concatenation.  Short-circuit evaluation of the
Python condition chain (and its `IndexError` sites) is preserved. -/
def mergeStep (merge page : SPage) : Option SPage :=
  match merge.elements.getLast? with
  | none => none
  | some lastE =>
    if lastE.isCodeIsh then
      match page.elements with
      | [] => none
      | e0 :: erest =>
        if e0.isCodeStrict then
          let newLast :=
            match lastE with
            | .Code ls f => Element.Code (ls ++ e0.linesOf) (fnUnion f e0.fnsOf)
            | .NumberedCode n ls f => .NumberedCode n (ls ++ e0.linesOf) (fnUnion f e0.fnsOf)
            | e => e
          mergeFinish { merge with elements := merge.elements.dropLast ++ [newLast] }
            erest page.footnotes
        else mergeFinish merge (e0 :: erest) page.footnotes
    else if lastE.isTextIsh then
      match page.elements with
      | [] => none
      | e0 :: erest =>
        match e0 with
        | .Paragraph c f =>
          (match c with
           | [] => none
           | ch :: _ =>
             if ch.isLower then
               match lastE.addcontent c with
               | none => none
               | some la2 =>
                 mergeFinish
                   { merge with
                     elements :=
                       merge.elements.dropLast ++ [la2.withFns (fnUnion la2.fnsOf f)] }
                   erest page.footnotes
             else
               -- the third repair needs a strict Code first element, which
               -- a strict Paragraph is not: plain concatenation
               mergeFinish merge (Element.Paragraph c f :: erest) page.footnotes)
        | e0 =>
          if lastE.isVDIsh && e0.isCodeStrict then
            match addLinesFold lastE e0.linesOf with
            | none => none
            | some la2 =>
              mergeFinish
                { merge with
                  elements :=
                    merge.elements.dropLast ++ [la2.withFns (fnUnion la2.fnsOf e0.fnsOf)] }
                erest page.footnotes
          else mergeFinish merge (e0 :: erest) page.footnotes
    else mergeFinish merge page.elements page.footnotes

/-- The fold of `mergeStep` over the remaining pages. -/
def mergeLoop : SPage → List SPage → Option SPage
  | m, [] => some m
  | m, p :: rest =>
    match mergeStep m p with
    | none => none
    | some m2 => mergeLoop m2 rest

/-- `pages.mergepages`; `none` on the empty list models `pages[0]`
raising `IndexError`. -/
def mergepages : List SPage → Option SPage
  | [] => none
  | p0 :: rest => mergeLoop p0 rest

/-!  ## Page segmentation (`pages.py`, `Page.__init__`) -/

/-- Split on a separator character, keeping empty pieces
(Python `str.split(sep)`). -/
def splitCharAux (sep : Char) : PyStr → PyStr → List PyStr
  | [], acc => [acc.reverse]
  | c :: rest, acc =>
    if c = sep then acc.reverse :: splitCharAux sep rest []
    else splitCharAux sep rest (c :: acc)

/-- Python list indexing with negative-index wraparound;
`none` models `IndexError`. -/
def pyGetWrap (l : List PyStr) (i : Int) : Option PyStr :=
  if 0 ≤ i then l.get? i.toNat
  else if (-i) ≤ (l.length : Int) then l.get? (l.length - (-i).toNat)
  else none

/-- Python list slicing `l[a:b]` with negative-index normalization. -/
def pySliceStrs (l : List PyStr) (a b : Int) : List PyStr :=
  let n : Int := l.length
  let a2 := (if a < 0 then max 0 (n + a) else min a n).toNat
  let b2 := (if b < 0 then max 0 (n + b) else min b n).toNat
  (l.drop a2).take (b2 - a2)

/-- `while not lines[i]: i += 1`; fuel bounds the scan, `none` models
`IndexError`. -/
def findFirstNonempty (lines : List PyStr) : Nat → Nat → Option Nat
  | 0, _ => none
  | fuel + 1, i =>
    match lines.get? i with
    | none => none
    | some l => if l.isEmpty then findFirstNonempty lines fuel (i + 1) else some i

/-- `while lines[i]: i += 1`. -/
def findFirstEmpty (lines : List PyStr) : Nat → Nat → Option Nat
  | 0, _ => none
  | fuel + 1, i =>
    match lines.get? i with
    | none => none
    | some l => if l.isEmpty then some i else findFirstEmpty lines fuel (i + 1)

/-- `while not lines[j - 1]: j -= 1` (with Python's negative-index
wraparound below zero). -/
def scanDownWhileEmpty (lines : List PyStr) : Nat → Int → Option Int
  | 0, _ => none
  | fuel + 1, j =>
    match pyGetWrap lines (j - 1) with
    | none => none
    | some l => if l.isEmpty then scanDownWhileEmpty lines fuel (j - 1) else some j

/-- `while lines[j - 1]: j -= 1`. -/
def scanDownWhileNonempty (lines : List PyStr) : Nat → Int → Option Int
  | 0, _ => none
  | fuel + 1, j =>
    match pyGetWrap lines (j - 1) with
    | none => none
    | some l => if l.isEmpty then some j else scanDownWhileNonempty lines fuel (j - 1)

/-- `checkonlynumbersinmargin(lines, margin)`. -/
def checkMargin (lines : List PyStr) (margin : Nat) : Bool :=
  if margin = 0 then true
  else lines.all (fun l => (pyStrip (l.take margin)).isEmpty || isint (l.take margin))

/-- Insert into a sorted duplicate-free list of naturals. -/
def insSortedDedup (x : Nat) : List Nat → List Nat
  | [] => [x]
  | y :: ys =>
    if x = y then y :: ys
    else if x < y then x :: y :: ys
    else y :: insSortedDedup x ys

/-- `sorted(set(len(line) - len(line.lstrip()) for line in contentlines
if line))`. -/
def sortedIndents (lines : List PyStr) : List Nat :=
  ((lines.filter (fun l => !l.isEmpty)).map leadWs).foldr insSortedDedup []

/-- The upward probe: `indent += 1; while check(indent): indent += 1;
indent -= 1`.  `none` models the nonterminating loop that the Python
code runs into when `check` never fails. -/
def searchUp (check : Nat → Bool) : Nat → Nat → Option Nat
  | _, 0 => none
  | m, fuel + 1 => if check (m + 1) then searchUp check (m + 1) fuel else some m

/-- The downward probe: `while indent > 0 and not check(indent):
indent -= 1`. -/
def searchDown (check : Nat → Bool) : Nat → Nat
  | 0 => 0
  | m + 1 => if check (m + 1) then m + 1 else searchDown check m

/-- Longest content line, bounding the upward probe: above this length
`check` is constant, so more fuel cannot change the outcome. -/
def maxLineLen (lines : List PyStr) : Nat :=
  (lines.map List.length).foldr max 0

structure Page where
  header : List PyStr
  footer : List PyStr
  content : List PyStr
  indent : Nat
deriving DecidableEq

/-- The indent computation of `Page.__init__`: the two-distinct-widths
test, then the upward or downward probe.  `none` models the
nonterminating upward loop (which the fuel bound can only hit when the
check never fails, i.e. exactly when Python loops forever). -/
def pageIndent (contentlines : List PyStr) : Option Nat :=
  let inds := sortedIndents contentlines
  if 2 ≤ inds.length ∧ inds.head? = some 0 then
    let est := inds.getD 1 0
    if checkMargin contentlines est then
      searchUp (checkMargin contentlines) est (maxLineLen contentlines + 2)
    else some (searchDown (checkMargin contentlines) est)
  else some 0

/-- `Page.__init__(page)` from the raw page text. -/
def pageMk (raw : PyStr) : Option Page :=
  let lines := (splitCharAux '\n' raw []).map pyRstrip
  let fuel := 2 * lines.length + 2
  match findFirstNonempty lines fuel 0 with
  | none => none
  | some hb =>
  match findFirstEmpty lines fuel (hb + 1) with
  | none => none
  | some he =>
  match scanDownWhileEmpty lines fuel lines.length with
  | none => none
  | some fe =>
  match scanDownWhileNonempty lines fuel (fe - 1) with
  | none => none
  | some fb =>
  match findFirstNonempty lines fuel (he + 1) with
  | none => none
  | some cb =>
  match scanDownWhileEmpty lines fuel (fb - 1) with
  | none => none
  | some ce =>
  let contentlines := pySliceStrs lines (cb : Int) ce
  match pageIndent contentlines with
  | none => none
  | some ind =>
    some { header := (pySliceStrs lines (hb : Int) (he : Int)).map pyLstrip
           footer := (pySliceStrs lines fb fe).map pyLstrip
           content := contentlines
           indent := ind }

/-!  ## Footnote placeholders (`pages.py`,
`StructuredPage._putfootnoteplaceholder`) -/

/-- Decimal digit character. -/
def digitChar (d : Nat) : Char :=
  if d = 0 then '0' else if d = 1 then '1' else if d = 2 then '2'
  else if d = 3 then '3' else if d = 4 then '4' else if d = 5 then '5'
  else if d = 6 then '6' else if d = 7 then '7' else if d = 8 then '8' else '9'

/-- Decimal representation of a natural, as produced by Python's
f-string interpolation of the footnote id. -/
def natReprF : Nat → Nat → PyStr
  | 0, _ => []
  | fuel + 1, n =>
    if n < 10 then [digitChar n]
    else natReprF fuel (n / 10) ++ [digitChar (n % 10)]

/-- Decimal representation with enough fuel (the value shrinks by a
factor of ten per step, so `n + 1` steps always suffice). -/
def natRepr (n : Nat) : PyStr := natReprF (n + 1) n

/-- The pattern `fr"{footnote}\)"`, a literal since the id is decimal. -/
def patStr (f : Nat) : PyStr := natRepr f ++ [')']

/-- The placeholder `f"\x1bfootnote{footnote}\x1b"`. -/
def phStr (f : Nat) : PyStr := '\x1b' :: (pys "footnote" ++ natRepr f ++ ['\x1b'])

/-- `re.subn` with a literal pattern: replace every non-overlapping
occurrence, left to right. -/
def replaceAllF (pat ph : PyStr) : Nat → PyStr → PyStr
  | 0, s => s
  | _ + 1, [] => []
  | fuel + 1, c :: rest =>
    if !pat.isEmpty && isPref pat (c :: rest) then
      ph ++ replaceAllF pat ph fuel ((c :: rest).drop pat.length)
    else c :: replaceAllF pat ph fuel rest

/-- The substitution with enough fuel for its argument (each step
consumes at least one character). -/
def replaceAll (pat ph : PyStr) (s : PyStr) : PyStr := replaceAllF pat ph (s.length + 1) s

/-- `StructuredPage._putfootnoteplaceholder` restricted to one element:
substitute in `Code` lines and in `Text` contents (except a
`Forward references: ` line), tracking the element's footnote set;
headings are untouched (they are neither `Code` nor `Text`). -/
def substElem (f : Nat) (e : Element) : Element :=
  let pat := patStr f
  let ph := phStr f
  let hitFns : List Nat → PyStr → List Nat := fun fns c =>
    if hasSub pat c then fnInsert fns f else fns
  match e with
  | .Code ls fns =>
    .Code (ls.map (replaceAll pat ph))
      (if ls.any (fun l => hasSub pat l) then fnInsert fns f else fns)
  | .NumberedCode n ls fns =>
    .NumberedCode n (ls.map (replaceAll pat ph))
      (if ls.any (fun l => hasSub pat l) then fnInsert fns f else fns)
  | .Paragraph c fns =>
    if isPref (pys "Forward references: ") c then .Paragraph c fns
    else .Paragraph (replaceAll pat ph c) (hitFns fns c)
  | .NumberedParagraph n c fns =>
    if isPref (pys "Forward references: ") c then .NumberedParagraph n c fns
    else .NumberedParagraph n (replaceAll pat ph c) (hitFns fns c)
  | .NoteParagraph n c fns =>
    if isPref (pys "Forward references: ") c then .NoteParagraph n c fns
    else .NoteParagraph n (replaceAll pat ph c) (hitFns fns c)
  | .NoteNumberParagraph n m c fns =>
    if isPref (pys "Forward references: ") c then .NoteNumberParagraph n m c fns
    else .NoteNumberParagraph n m (replaceAll pat ph c) (hitFns fns c)
  | .NoteToEntryParagraph n m c fns =>
    if isPref (pys "Forward references: ") c then .NoteToEntryParagraph n m c fns
    else .NoteToEntryParagraph n m (replaceAll pat ph c) (hitFns fns c)
  | .ExampleParagraph n c fns =>
    if isPref (pys "Forward references: ") c then .ExampleParagraph n c fns
    else .ExampleParagraph n (replaceAll pat ph c) (hitFns fns c)
  | .ExampleNumberParagraph n m c fns =>
    if isPref (pys "Forward references: ") c then .ExampleNumberParagraph n m c fns
    else .ExampleNumberParagraph n m (replaceAll pat ph c) (hitFns fns c)
  | .UnorderedListItem l i c fns =>
    if isPref (pys "Forward references: ") c then .UnorderedListItem l i c fns
    else .UnorderedListItem l i (replaceAll pat ph c) (hitFns fns c)
  | .OrderedListItem n c fns =>
    if isPref (pys "Forward references: ") c then .OrderedListItem n c fns
    else .OrderedListItem n (replaceAll pat ph c) (hitFns fns c)
  | .ValueDefinition v c fns =>
    if isPref (pys "Forward references: ") c then .ValueDefinition v c fns
    else .ValueDefinition v (replaceAll pat ph c) (hitFns fns c)
  | .NumberedValueDefinition n v c fns =>
    if isPref (pys "Forward references: ") c then .NumberedValueDefinition n v c fns
    else .NumberedValueDefinition n v (replaceAll pat ph c) (hitFns fns c)
  | .TitleHeading c => .TitleHeading c
  | .NumberedHeading k => .NumberedHeading k
  | .NumberedTitleHeading k c => .NumberedTitleHeading k c

/-- `StructuredPage._putfootnoteplaceholder(footnote)`: rewrites the
body elements only (the source iterates `self.elements`). -/
def putfootnoteplaceholder (p : SPage) (f : Nat) : SPage :=
  { p with elements := p.elements.map (substElem f) }

/-- `StructuredPage.putfootnoteplaceholders()`: one pass per footnote
id, in map order. -/
def putfootnoteplaceholders (p : SPage) : SPage :=
  (p.footnotes.map Prod.fst).foldl putfootnoteplaceholder p

/-!  ## Concrete inputs used by the claims -/

/-- A driver feeding lines to one parser in sequence, as
`StructuredPage.__init__` does for body content. -/
def runLines : LineParser → TOCMatcher → List PyStr → Option (LineParser × TOCMatcher)
  | lp, tm, [] => some (lp, tm)
  | lp, tm, l :: rest =>
    match parseline lp tm l none with
    | none => none
    | some (lp2, tm2) => runLines lp2 tm2 rest

/-- The claim scenario's TOC: entries `("Scope","1")` and
`("Normative references","2")`. -/
def tmC1 : TOCMatcher :=
  tocMatcherInit [(pys "Scope", some (pys "1")), (pys "Normative references", some (pys "2"))]

/-- The claim scenario's page content, verbatim. -/
def c1orig : List PyStr :=
  [pys "1 Scope", pys "", pys "This applies to widgets.", pys "",
   pys "2 Normative references", pys "", pys "1) a cited standard"]

/-- The nearest input on which the scenario's intent goes through: the
bare-integer TOC key pattern requires `1.` with a trailing period, and
the footnote marker pattern requires leading whitespace. -/
def c1fixed : List PyStr :=
  [pys "1. Scope", pys "", pys "This applies to widgets.", pys "",
   pys "2. Normative references", pys "", pys "   1) a cited standard"]

/-- The matcher state after the first title of the scenario TOC has
been matched. -/
def tmC1after : TOCMatcher :=
  ⟨[(pys "Normative references", some (pys "2"))], [some (pys "1"), some (pys "2")]⟩

/-- Page text for the segmentation invariant's witness. -/
def pageC8raw : PyStr := pys "\nHeader\n\nBody text\n\nFooter\n"

/-- A body paragraph referencing footnote 1. -/
def eC5 : Element := .Paragraph (pys "see 1)") []

/-- A page whose body references footnote 1 and whose footnote text
also contains the shape `1)`. -/
def spC5 : SPage :=
  { elements := [eC5], footnotes := [(1, [.Paragraph (pys "also 1)") []])] }

/-- A parser state whose last element is an open code block and whose
continuation flag has been cleared by a blank line. -/
def lpC7 : LineParser :=
  { elements := [.Code [pys "x"] []], inelement := false, indentP := 0,
    insyntax := 0, inN3220 := false }

/-- A structured page holding only footnote 1 (its whole content is the
footnote region, so its element list is empty). -/
def spC3a : SPage := { elements := [], footnotes := [(1, [.Paragraph (pys "a") []])] }

/-- A structured page holding only footnote 2. -/
def spC3b : SPage := { elements := [], footnotes := [(2, [.Paragraph (pys "b") []])] }

/-- A one-heading page carrying footnote 3, for the merger witness. -/
def spC3c : SPage :=
  { elements := [.TitleHeading (pys "T")], footnotes := [(3, [.Paragraph (pys "x") []])] }

/-- A one-heading page also carrying footnote 3. -/
def spC3d : SPage :=
  { elements := [.TitleHeading (pys "U")], footnotes := [(3, [.Paragraph (pys "y") []])] }

/-- The element-count outcome the classifier claim is about: one new
element appended, or none with the previous element being a code block
that the line extended. -/
def C7Post (st : LineParser) (r : LineParser × TOCMatcher) : Prop :=
  r.1.elements.length = st.elements.length + 1 ∨
  (r.1.elements.length = st.elements.length ∧
    ∃ e, st.elements.getLast? = some e ∧ e.isCodeIsh = true)

/-!  ## Support lemmas about the string primitives -/

theorem isPref_head (p : Char) (ps l : PyStr) (h : isPref (p :: ps) l = true) :
    l.head? = some p := by
  cases l with
  | nil => simp [isPref] at h
  | cons c cs =>
    simp only [isPref, Bool.and_eq_true, decide_eq_true_eq] at h
    simp [h.1]

theorem httpBreak_getLast (s : PyStr) (h : httpBreak s = true) :
    s.getLast? = some ':' ∨ s.getLast? = some '/' := by
  unfold httpBreak at h
  rw [Bool.or_eq_true, Bool.or_eq_true, Bool.or_eq_true] at h
  rw [← List.head?_reverse]
  rcases h with ((h | h) | h) | h
  · exact Or.inl (isPref_head _ _ _
      (by rw [show (pys "http:").reverse = ':' :: pys "ptth" from rfl] at h; exact h))
  · exact Or.inl (isPref_head _ _ _
      (by rw [show (pys "https:").reverse = ':' :: pys "sptth" from rfl] at h; exact h))
  · exact Or.inr (isPref_head _ _ _
      (by rw [show (pys "http://").reverse = '/' :: pys "/:ptth" from rfl] at h; exact h))
  · exact Or.inr (isPref_head _ _ _
      (by rw [show (pys "https://").reverse = '/' :: pys "/:sptth" from rfl] at h; exact h))

theorem splitWsAux_ne_nil :
    ∀ (s : PyStr) (acc : PyStr),
      (∃ c ∈ s, isPyWs c = false) ∨ acc ≠ [] → splitWsAux s acc ≠ [] := by
  intro s
  induction s with
  | nil =>
    intro acc h
    rcases h with ⟨c, hc, _⟩ | h
    · exact absurd hc (List.not_mem_nil c)
    · simp [splitWsAux, List.isEmpty_iff, h]
  | cons c cs ih =>
    intro acc h
    simp only [splitWsAux]
    by_cases hws : isPyWs c
    · rw [if_pos hws]
      by_cases hacc : acc.isEmpty
      · rw [if_pos hacc]
        apply ih
        left
        rcases h with ⟨d, hd, hdw⟩ | hne
        · rcases List.mem_cons.mp hd with rfl | hd2
          · rw [hws] at hdw; exact absurd hdw (by simp)
          · exact ⟨d, hd2, hdw⟩
        · exact absurd (List.isEmpty_iff.mp hacc) hne
      · rw [if_neg hacc]
        exact List.cons_ne_nil _ _
    · rw [if_neg hws]
      exact ih (c :: acc) (Or.inr (List.cons_ne_nil c acc))

theorem pySplitWs_ne_nil (s : PyStr) (c : Char) (hc : c ∈ s) (hw : isPyWs c = false) :
    pySplitWs s ≠ [] :=
  splitWsAux_ne_nil s [] (Or.inl ⟨c, hc, hw⟩)

/-!  ## Theorems -/

/-- C4 (part of): a `matchtitle` call that returns `False` leaves the
matcher state unchanged (so a second call with the same line returns
the same result), and a call that returns `True` pops exactly one entry
off each stack.  The `some` hypothesis excludes the `IndexError` state
of an empty heading stack alongside a nonempty title stack, which
`tocMatcherInit` never produces. -/
theorem c4_matchtitle_frame_or_pop (m : TOCMatcher) (line : PyStr) (b : Bool)
    (m2 : TOCMatcher) (h : matchtitleM m line = some (b, m2)) :
    (b = false ∧ m2 = m ∧ matchtitleM m2 line = some (b, m2)) ∨
      (b = true ∧ m2.titlestack.length + 1 = m.titlestack.length ∧
        m2.headingstack.length + 1 = m.headingstack.length) := by
  obtain ⟨ts, hs⟩ := m
  cases ts with
  | nil =>
    simp only [matchtitleM, Option.some.injEq, Prod.mk.injEq] at h
    obtain ⟨hb, hm⟩ := h
    subst hb hm
    left
    exact ⟨rfl, rfl, rfl⟩
  | cons t ts2 =>
    simp only [matchtitleM] at h
    by_cases ht : titleFullMatch t line
    · rw [if_pos ht] at h
      cases hs with
      | nil => exact absurd h (by simp)
      | cons h0 hs2 =>
        simp only [Option.some.injEq, Prod.mk.injEq] at h
        obtain ⟨hb, hm⟩ := h
        subst hb
        right
        refine ⟨rfl, ?_, ?_⟩ <;> rw [← hm] <;> simp
    · rw [if_neg ht] at h
      simp only [Option.some.injEq, Prod.mk.injEq] at h
      obtain ⟨hb, hm⟩ := h
      subst hb hm
      left
      refine ⟨rfl, rfl, ?_⟩
      simp only [matchtitleM]
      rw [if_neg ht]

/-- Witness for C4 at a concrete matcher and line. -/
theorem c4_witness :
    (true = false ∧ tmC1after = tmC1 ∧
        matchtitleM tmC1after (pys "1. Scope") = some (true, tmC1after)) ∨
      (true = true ∧ tmC1after.titlestack.length + 1 = tmC1.titlestack.length ∧
        tmC1after.headingstack.length + 1 = tmC1.headingstack.length) :=
  c4_matchtitle_frame_or_pop tmC1 (pys "1. Scope") true tmC1after (by decide)

/-- C9: `matchheading` never changes the matcher state, whatever it
returns; consequently a repeated call returns the same boolean. -/
theorem c9_matchheading_frame (m : TOCMatcher) (line : PyStr) :
    (matchheadingM m line).2 = m ∧
      (matchheadingM (matchheadingM m line).2 line).1 = (matchheadingM m line).1 := by
  have hframe : (matchheadingM m line).2 = m := by
    unfold matchheadingM
    rcases m with ⟨ts, hs⟩
    rcases hs with _ | ⟨h0, hs2⟩
    · rfl
    · rcases h0 with _ | k
      · rfl
      · dsimp only
        split
        · split <;> rfl
        · rfl
  exact ⟨hframe, by rw [hframe]⟩

/-- C1 counterexample: on the scenario input, as stated, the constructed
page has neither the claimed element list nor the claimed footnote map.
The bare-integer key pattern `^\s*1\.\s+Scope$` does not match
`"1 Scope"` (no period), and the footnote pattern `^\s+\d+\)\s?\S`
requires leading whitespace that `"1) a cited standard"` lacks, so every
line is classified as a plain paragraph. -/
theorem c1_counterexample :
    ¬ ((mkStructuredPage c1orig 0 tmC1 0).map (fun r => r.1.elements) =
        some [Element.TitleHeading (pys "1 Scope"),
          Element.Paragraph (pys "This applies to widgets.") [],
          Element.TitleHeading (pys "2 Normative references")] ∧
      (mkStructuredPage c1orig 0 tmC1 0).map (fun r => r.1.footnotes) =
        some [(1, [Element.Paragraph (pys "a cited standard") []])]) := by
  decide

/-- C1 amended: the scenario goes through once the title lines carry the
period that the bare-integer key pattern requires (`"1. Scope"`,
`"2. Normative references"`, yielding `NumberedTitleHeading`s, since the
first token `"1."` matches the chapter-dot pattern) and the footnote
line is indented (`"   1) a cited standard"`); the body paragraph is
unchanged and the footnote map is `{1: [Paragraph("a cited standard")]}`.
On the verbatim scenario input every line becomes a plain `Paragraph`
and the footnote map is empty. -/
theorem c1_structured_page_scenario :
    (mkStructuredPage c1fixed 0 tmC1 0).map Prod.fst =
      some { elements := [.NumberedTitleHeading (pys "1.") (pys "Scope"),
                          .Paragraph (pys "This applies to widgets.") [],
                          .NumberedTitleHeading (pys "2.") (pys "Normative references")]
             footnotes := [(1, [.Paragraph (pys "a cited standard") []])] } ∧
      (mkStructuredPage c1orig 0 tmC1 0).map Prod.fst =
        some { elements := [.Paragraph (pys "1 Scope") [],
                            .Paragraph (pys "This applies to widgets.") [],
                            .Paragraph (pys "2 Normative references") [],
                            .Paragraph (pys "1) a cited standard") []]
               footnotes := [] } := by
  exact ⟨by decide, by decide⟩

/-- C6 counterexample: the classifier accepts ordered-list lines
numbered 1 then 3 (and a list starting at 3) without raising — the
source performs no consecutiveness or starting-number check — while the
claim says both must raise. -/
theorem c6_counterexample :
    (runLines (LineParser.init 0) (tocMatcherInit [])
        [pys "1. aa", pys "3. cc"]).map (fun r => r.1.elements) =
      some [.OrderedListItem 1 (pys "aa") [], .OrderedListItem 3 (pys "cc") []] ∧
    (runLines (LineParser.init 0) (tocMatcherInit [])
        [pys "3. cc"]).map (fun r => r.1.elements) =
      some [.OrderedListItem 3 (pys "cc") []] := by
  exact ⟨by decide, by decide⟩

/-- C6 amended: feeding ordered-list lines numbered 1, 2, 3 in sequence
never raises; feeding 1 then 3 does not raise either, nor does a list
whose first item is numbered 3 — the classifier records the numbers as
given, performing no consecutiveness check. -/
theorem c6_ordered_list_numbering :
    (runLines (LineParser.init 0) (tocMatcherInit [])
        [pys "1. aa", pys "2. bb", pys "3. cc"]).map (fun r => r.1.elements) =
      some [.OrderedListItem 1 (pys "aa") [], .OrderedListItem 2 (pys "bb") [],
        .OrderedListItem 3 (pys "cc") []] ∧
    (runLines (LineParser.init 0) (tocMatcherInit [])
        [pys "1. aa", pys "3. cc"]).map (fun r => r.1.elements) =
      some [.OrderedListItem 1 (pys "aa") [], .OrderedListItem 3 (pys "cc") []] ∧
    (runLines (LineParser.init 0) (tocMatcherInit [])
        [pys "3. cc"]).map (fun r => r.1.elements) =
      some [.OrderedListItem 3 (pys "cc") []] := by
  exact ⟨by decide, by decide, by decide⟩

/-- C2 amended: when an open text ends with a hyphen and the next line
has at least one word, `addcontent` keeps the text intact if the
hyphen-preceding word (lowercased) is in the `NOSTITCHING` allow-list
and otherwise drops exactly the final hyphen; in both cases the next
line's first word is concatenated directly onto it, with a newline (not
a space) before any remaining text.  In particular `"imple-"` +
`"mentation"` gives `"implementation"`, while `"floating-"` +
`"point format"` gives `"floating-point\nformat"`. -/
theorem c2_hyphen_stitching (selfc next : PyStr) (hne : selfc ≠ [])
    (hlast : selfc.getLast? = some '-') (hw : pySplitWs1 next ≠ []) :
    ∃ lw, (pySplitWs selfc).getLast? = some lw ∧
      addcontentStr selfc next =
        some ((if pyLower lw ∈ NOSTITCHING then selfc else selfc.dropLast) ++
          (match pySplitWs1 next with
           | [_] => pyStrip next
           | w :: rest :: _ => pyStrip w ++ '\n' :: pyStrip rest
           | [] => [])) := by
  have hsplit_ne : pySplitWs selfc ≠ [] :=
    pySplitWs_ne_nil selfc '-' (List.mem_of_mem_getLast? hlast) (by decide)
  obtain ⟨lw, hlw⟩ : ∃ lw, (pySplitWs selfc).getLast? = some lw := by
    cases hsp : (pySplitWs selfc).getLast? with
    | none => exact absurd (List.getLast?_eq_none_iff.mp hsp) hsplit_ne
    | some lw => exact ⟨lw, rfl⟩
  refine ⟨lw, hlw, ?_⟩
  have hhttp : httpBreak selfc = false := by
    cases hhb : httpBreak selfc
    · rfl
    · rcases httpBreak_getLast selfc hhb with h | h <;> rw [hlast] at h <;> simp at h
  have hne' : selfc.isEmpty = false := by simp [List.isEmpty_iff, hne]
  unfold addcontentStr
  rw [hne']
  simp only [Bool.false_eq_true, if_false, hhttp, hlast, if_pos rfl, hlw]
  by_cases hmem : pyLower lw ∈ NOSTITCHING
  · rw [if_pos hmem, if_pos hmem]
    cases hn : pySplitWs1 next with
    | nil => exact absurd hn hw
    | cons w ws => cases ws <;> simp
  · rw [if_neg hmem, if_neg hmem]
    cases hn : pySplitWs1 next with
    | nil => exact absurd hn hw
    | cons w ws => cases ws <;> simp

/-- Witness for C2: `"imple-"` + `"mentation"` dehyphenates to
`"implementation"`. -/
theorem c2_witness :
    ∃ lw, (pySplitWs (pys "imple-")).getLast? = some lw ∧
      addcontentStr (pys "imple-") (pys "mentation") =
        some ((if pyLower lw ∈ NOSTITCHING then pys "imple-"
               else (pys "imple-").dropLast) ++
          (match pySplitWs1 (pys "mentation") with
           | [_] => pyStrip (pys "mentation")
           | w :: rest :: _ => pyStrip w ++ '\n' :: pyStrip rest
           | [] => [])) :=
  c2_hyphen_stitching (pys "imple-") (pys "mentation") (by decide) (by decide) (by decide)

/-- C2 counterexample: the allow-listed pair `"floating-"` +
`"point format"` merges with a newline before `"format"`, not the space
the claim's quoted result `"floating-point format"` shows. -/
theorem c2_counterexample :
    addcontentStr (pys "floating-") (pys "point format") =
        some (pys "floating-point\nformat") ∧
      pys "floating-point\nformat" ≠ pys "floating-point format" := by
  exact ⟨by decide, by decide⟩

/-- Heads surviving `dropWhile` fail the predicate. -/
theorem dropWhile_head_false (p : Char → Bool) :
    ∀ (l : PyStr) (c : Char) (cs : PyStr), l.dropWhile p = c :: cs → p c = false := by
  intro l
  induction l with
  | nil => intro c cs h; simp at h
  | cons a as ih =>
    intro c cs h
    by_cases hp : p a
    · rw [List.dropWhile_cons_of_pos hp] at h
      exact ih c cs h
    · rw [List.dropWhile_cons_of_neg hp] at h
      cases h
      simpa using hp

/-- A continuation line with exactly one word: `split(maxsplit=1)` gives
the stripped line itself, which is nonempty and whitespace-free. -/
theorem oneWord_strip (next : PyStr) (h : (pySplitWs1 next).length = 1) :
    pySplitWs1 next = [pyStrip next] ∧ pyStrip next ≠ [] ∧
      ∀ c ∈ pyStrip next, isPyWs c = false := by
  unfold pySplitWs1 at h ⊢
  by_cases ht : (next.dropWhile isPyWs).isEmpty
  · rw [if_pos ht] at h
    simp at h
  · rw [if_neg ht] at h ⊢
    set t := next.dropWhile isPyWs with htdef
    set w := t.takeWhile (fun c => !isPyWs c) with hwdef
    set d := t.dropWhile (fun c => !isPyWs c) with hddef
    by_cases hr : (d.dropWhile isPyWs).isEmpty
    · rw [if_pos hr] at h ⊢
      have hdws : ∀ x ∈ d, isPyWs x := by
        intro x hx
        exact (List.dropWhile_eq_nil_iff.mp (by simpa using hr)) x hx
      have hwns : ∀ c ∈ w, isPyWs c = false := by
        intro c hc
        have := List.mem_takeWhile_imp hc
        simpa using this
      have htw : t = w ++ d := (List.takeWhile_append_dropWhile _ _).symm
      have hwne : w ≠ [] := by
        cases hc : t with
        | nil => rw [hc] at ht; simp at ht
        | cons c0 t2 =>
          have hc0 : isPyWs c0 = false := dropWhile_head_false isPyWs next c0 t2 hc
          rw [hwdef, hc, List.takeWhile_cons_of_pos (by simp [hc0])]
          exact List.cons_ne_nil _ _
      have hstrip : pyStrip next = w := by
        show pyRstrip (pyLstrip next) = w
        have : pyLstrip next = t := rfl
        rw [this, htw]
        show ((w ++ d).reverse.dropWhile isPyWs).reverse = w
        rw [List.reverse_append]
        rw [List.dropWhile_append_of_pos (by intro x hx; exact hdws x (List.mem_reverse.mp hx))]
        have : w.reverse.dropWhile isPyWs = w.reverse := by
          cases hwr : w.reverse with
          | nil => rfl
          | cons x xs =>
            have hx : x ∈ w := by
              rw [← List.mem_reverse, hwr]
              simp
            exact List.dropWhile_cons_of_neg (by simp [hwns x hx])
        rw [this, List.reverse_reverse]
      rw [hstrip]
      exact ⟨rfl, hwne, fun c hc => hwns c hc⟩
    · rw [if_neg hr] at h
      simp at h

/-- C10: when the open text ends in a URL fragment or a hyphen and the
continuation line is a single word, that word (whitespace-free, so
carrying no line break) is concatenated directly — onto the text itself,
or onto the text minus its final hyphen in the dehyphenation case — with
no newline inserted. -/
theorem c10_single_word_no_newline (selfc next : PyStr) (hne : selfc ≠ [])
    (hcase : httpBreak selfc = true ∨ selfc.getLast? = some '-')
    (hone : (pySplitWs1 next).length = 1) :
    (∀ c ∈ pyStrip next, isPyWs c = false) ∧
      (addcontentStr selfc next = some (selfc ++ pyStrip next) ∨
        addcontentStr selfc next = some (selfc.dropLast ++ pyStrip next)) := by
  obtain ⟨hsp, hnz, hns⟩ := oneWord_strip next hone
  refine ⟨hns, ?_⟩
  have hne' : selfc.isEmpty = false := by simp [List.isEmpty_iff, hne]
  unfold addcontentStr
  rw [hne']
  simp only [Bool.false_eq_true, if_false]
  by_cases hh : httpBreak selfc
  · rw [hh]
    simp only [if_true]
    left
    rw [hsp]
  · rcases hcase with hcase | hl
    · exact absurd hcase hh
    · rw [Bool.not_eq_true] at hh
      have hsplit_ne : pySplitWs selfc ≠ [] :=
        pySplitWs_ne_nil selfc '-' (List.mem_of_mem_getLast? hl) (by decide)
      obtain ⟨lw, hlw⟩ : ∃ lw, (pySplitWs selfc).getLast? = some lw := by
        cases hg : (pySplitWs selfc).getLast? with
        | none => exact absurd (List.getLast?_eq_none_iff.mp hg) hsplit_ne
        | some lw => exact ⟨lw, rfl⟩
      by_cases hmem : pyLower lw ∈ NOSTITCHING
      · left
        simp [hh, hl, hlw, hsp, hmem]
      · right
        simp [hh, hl, hlw, hsp, hmem]

/-- Witness for C10: completing a wrapped URL with a single word. -/
theorem c10_witness :
    (∀ c ∈ pyStrip (pys " example.org "), isPyWs c = false) ∧
      (addcontentStr (pys "see https://") (pys " example.org ") =
          some (pys "see https://" ++ pyStrip (pys " example.org ")) ∨
        addcontentStr (pys "see https://") (pys " example.org ") =
          some ((pys "see https://").dropLast ++ pyStrip (pys " example.org "))) :=
  c10_single_word_no_newline (pys "see https://") (pys " example.org ")
    (by decide) (Or.inl (by decide)) (by decide)

/-- `digitChar` yields one of the ten digit characters. -/
theorem digitChar_ne (d : Nat) : digitChar d ≠ '\x1b' ∧ digitChar d ≠ ')' := by
  unfold digitChar
  repeat' split
  all_goals exact ⟨by decide, by decide⟩

/-- Every character of a decimal representation is a digit character. -/
theorem natReprF_chars : ∀ (fuel n : Nat) (c : Char),
    c ∈ natReprF fuel n → ∃ d, c = digitChar d := by
  intro fuel
  induction fuel with
  | zero => intro n c h; exact absurd h (List.not_mem_nil c)
  | succ fuel ih =>
    intro n c h
    unfold natReprF at h
    by_cases hn : n < 10
    · rw [if_pos hn] at h
      exact ⟨n, by simpa using h⟩
    · rw [if_neg hn] at h
      rcases List.mem_append.mp h with h2 | h2
      · exact ih (n / 10) c h2
      · exact ⟨n % 10, by simpa using h2⟩

theorem esc_notin_pat (f : Nat) : '\x1b' ∉ patStr f := by
  intro h
  rcases List.mem_append.mp h with h2 | h2
  · obtain ⟨d, hd⟩ := natReprF_chars (f + 1) f _ h2
    exact (digitChar_ne d).1 hd.symm
  · simp at h2

theorem pat_ne_nil (f : Nat) : patStr f ≠ [] := by
  unfold patStr
  simp

theorem paren_in_pat (f : Nat) : ')' ∈ patStr f := by
  unfold patStr
  simp

theorem paren_notin_ph (f : Nat) : ')' ∉ phStr f := by
  intro h
  unfold phStr at h
  rcases List.mem_cons.mp h with h2 | h2
  · simp at h2
  · rcases List.mem_append.mp h2 with h3 | h3
    · rcases List.mem_append.mp h3 with h4 | h4
      · revert h4; decide
      · obtain ⟨d, hd⟩ := natReprF_chars (f + 1) f _ h4
        exact (digitChar_ne d).2 hd.symm
    · simp at h3

theorem ph_getLast (f : Nat) : (phStr f).getLast? = some '\x1b' := by
  have : phStr f = ('\x1b' :: (pys "footnote" ++ natRepr f)) ++ ['\x1b'] := by
    unfold phStr
    simp
  rw [this, List.getLast?_concat]

/-- `isPref` decides the prefix relation. -/
theorem isPref_iff (p : PyStr) : ∀ s, isPref p s = true ↔ p <+: s := by
  induction p with
  | nil => intro s; simp [isPref, List.nil_prefix]
  | cons a ps ih =>
    intro s
    cases s with
    | nil => simp [isPref]
    | cons c cs =>
      simp only [isPref, Bool.and_eq_true, decide_eq_true_eq, List.cons_prefix_cons, ih]

/-- Any prefix of the substituted string is a prefix of the original or
contains the escape character that brackets every placeholder. -/
theorem replaceAllF_prefix_transfer (f : Nat) : ∀ (fuel : Nat) (s q : PyStr),
    q <+: replaceAllF (patStr f) (phStr f) fuel s → q <+: s ∨ '\x1b' ∈ q := by
  intro fuel
  induction fuel with
  | zero => intro s q h; exact Or.inl h
  | succ fuel ih =>
    intro s q h
    cases s with
    | nil => exact Or.inl h
    | cons c rest =>
      unfold replaceAllF at h
      by_cases hp : !(patStr f).isEmpty && isPref (patStr f) (c :: rest)
      · rw [if_pos hp] at h
        cases q with
        | nil => exact Or.inl (List.nil_prefix)
        | cons q0 qs =>
          have hcons : phStr f ++ replaceAllF (patStr f) (phStr f) fuel
              ((c :: rest).drop (patStr f).length) =
              '\x1b' :: (pys "footnote" ++ natRepr f ++ ['\x1b'] ++
                replaceAllF (patStr f) (phStr f) fuel ((c :: rest).drop (patStr f).length)) := by
            unfold phStr
            simp
          rw [hcons] at h
          obtain ⟨hq0, _⟩ := List.cons_prefix_cons.mp h
          right
          rw [hq0]
          simp
      · rw [if_neg hp] at h
        cases q with
        | nil => exact Or.inl (List.nil_prefix)
        | cons q0 qs =>
          obtain ⟨hq0, hqs⟩ := List.cons_prefix_cons.mp h
          rcases ih rest qs hqs with h2 | h2
          · exact Or.inl (List.cons_prefix_cons.mpr ⟨hq0, h2⟩)
          · right
            simp [h2]

/-- No occurrence of the pattern can touch a placeholder: prepending the
placeholder to occurrence-free text keeps it occurrence-free. -/
theorem hasSub_ph_append (f : Nat) (X : PyStr) (hX : hasSub (patStr f) X = false) :
    ∀ (Y : PyStr), Y <:+ phStr f → hasSub (patStr f) (Y ++ X) = false := by
  intro Y
  induction Y with
  | nil => intro _; simpa using hX
  | cons y ys ih =>
    intro hYs
    have htail : hasSub (patStr f) (ys ++ X) = false :=
      ih ((List.suffix_cons y ys).trans hYs)
    show (isPref (patStr f) ((y :: ys) ++ X) || hasSub (patStr f) (ys ++ X)) = false
    rw [htail, Bool.or_false]
    by_cases hpre : isPref (patStr f) ((y :: ys) ++ X) = true
    · exfalso
      have hpre2 : patStr f <+: (y :: ys) ++ X := (isPref_iff _ _).mp hpre
      by_cases hlen : (patStr f).length ≤ (y :: ys).length
      · have h1 : patStr f = ((y :: ys) ++ X).take (patStr f).length :=
          List.prefix_iff_eq_take.mp hpre2
        rw [List.take_append_eq_append_take] at h1
        rw [show (patStr f).length - (y :: ys).length = 0 by omega] at h1
        rw [List.take_zero, List.append_nil] at h1
        have hpY : patStr f <+: (y :: ys) := by
          rw [h1]
          exact List.take_prefix _ _
        have hsub : (patStr f).Sublist (phStr f) := hpY.sublist.trans hYs.sublist
        exact paren_notin_ph f (hsub.mem (paren_in_pat f))
      · have h1 : patStr f = ((y :: ys) ++ X).take (patStr f).length :=
          List.prefix_iff_eq_take.mp hpre2
        rw [List.take_append_eq_append_take] at h1
        rw [List.take_of_length_le (by omega)] at h1
        have hYp : (y :: ys) <+: patStr f := ⟨_, h1.symm⟩
        obtain ⟨pre, hpre3⟩ := hYs
        have hlast : (y :: ys).getLast? = some '\x1b' := by
          have hg := ph_getLast f
          rw [← hpre3, List.getLast?_append_of_ne_nil _ (List.cons_ne_nil y ys)] at hg
          exact hg
        exact esc_notin_pat f (hYp.subset (List.mem_of_mem_getLast? hlast))
    · simpa using hpre

/-- After one substitution pass no occurrence of the pattern remains. -/
theorem replaceAllF_no_occ (f : Nat) : ∀ (fuel : Nat) (s : PyStr), s.length ≤ fuel →
    hasSub (patStr f) (replaceAllF (patStr f) (phStr f) fuel s) = false := by
  intro fuel
  induction fuel with
  | zero =>
    intro s hs
    have : s = [] := List.length_eq_zero.mp (by omega)
    subst this
    show (patStr f).isEmpty = false
    simp [List.isEmpty_iff, pat_ne_nil f]
  | succ fuel ih =>
    intro s hs
    cases s with
    | nil =>
      show (patStr f).isEmpty = false
      simp [List.isEmpty_iff, pat_ne_nil f]
    | cons c rest =>
      have hplen : 1 ≤ (patStr f).length := by
        cases hp : patStr f with
        | nil => exact absurd hp (pat_ne_nil f)
        | cons a as => simp
      by_cases hp : !(patStr f).isEmpty && isPref (patStr f) (c :: rest)
      · have hrw : replaceAllF (patStr f) (phStr f) (fuel + 1) (c :: rest) =
            phStr f ++ replaceAllF (patStr f) (phStr f) fuel
              ((c :: rest).drop (patStr f).length) := by
          simp only [replaceAllF]
          rw [if_pos hp]
        rw [hrw]
        apply hasSub_ph_append f _ _ (phStr f) (List.suffix_refl _)
        apply ih
        simp only [List.length_drop, List.length_cons]
        simp only [List.length_cons] at hs
        omega
      · have hrw : replaceAllF (patStr f) (phStr f) (fuel + 1) (c :: rest) =
            c :: replaceAllF (patStr f) (phStr f) fuel rest := by
          simp only [replaceAllF]
          rw [if_neg hp]
        rw [hrw]
        have htail : hasSub (patStr f) (replaceAllF (patStr f) (phStr f) fuel rest) = false :=
          ih rest (by simp only [List.length_cons] at hs; omega)
        show (isPref (patStr f) (c :: replaceAllF (patStr f) (phStr f) fuel rest) ||
          hasSub (patStr f) (replaceAllF (patStr f) (phStr f) fuel rest)) = false
        rw [htail, Bool.or_false]
        by_cases hpre : isPref (patStr f)
            (c :: replaceAllF (patStr f) (phStr f) fuel rest) = true
        · exfalso
          have h2 : patStr f <+: replaceAllF (patStr f) (phStr f) (fuel + 1) (c :: rest) := by
            rw [hrw]
            exact (isPref_iff _ _).mp hpre
          rcases replaceAllF_prefix_transfer f (fuel + 1) (c :: rest) (patStr f) h2 with h3 | h3
          · have hpref : isPref (patStr f) (c :: rest) = true := (isPref_iff _ _).mpr h3
            have hnem : ((patStr f).isEmpty : Bool) = false := by
              simp [List.isEmpty_iff, pat_ne_nil f]
            exact hp (by rw [hnem, hpref]; rfl)
          · exact esc_notin_pat f h3
        · simpa using hpre

/-- The instance of the no-occurrence lemma used by the claim. -/
theorem replaceAll_no_occ (f : Nat) (s : PyStr) :
    hasSub (patStr f) (replaceAll (patStr f) (phStr f) s) = false :=
  replaceAllF_no_occ f (s.length + 1) s (by omega)

/-- `set.add` puts the element in the set. -/
theorem fnInsert_self (s : List Nat) (f : Nat) : f ∈ fnInsert s f := by
  unfold fnInsert
  split
  · assumption
  · simp

/-- The full placeholder pass never touches the footnote map. -/
theorem putfn_foldl_footnotes :
    ∀ (ks : List Nat) (q : SPage), (ks.foldl putfootnoteplaceholder q).footnotes = q.footnotes := by
  intro ks
  induction ks with
  | nil => intro q; rfl
  | cons k ks2 ih => intro q; exact ih (putfootnoteplaceholder q k)

/-- C5 amended: `putfootnoteplaceholders` substitutes only in the body —
the footnote element lists come out entirely unchanged — and, per
footnote id, the body substitution of `_putfootnoteplaceholder` leaves
no occurrence of `"<id>)"` in `Code` lines or in `Text` contents (except
a `Forward references: ` text, which is untouched, and the heading
elements, which are neither `Code` nor `Text`), adding the id to the
element's footnote set whenever an occurrence was substituted. -/
theorem c5_placeholder_substitution (p : SPage) (f : Nat) :
    (putfootnoteplaceholders p).footnotes = p.footnotes ∧
    (putfootnoteplaceholder p f).footnotes = p.footnotes ∧
    (putfootnoteplaceholder p f).elements = p.elements.map (substElem f) ∧
    ∀ e ∈ p.elements,
      (e.isHeadingKind = true → substElem f e = e) ∧
      (e.isTextIsh = true → isPref (pys "Forward references: ") e.contentOf = true →
        substElem f e = e) ∧
      (e.isTextIsh = true → isPref (pys "Forward references: ") e.contentOf = false →
        hasSub (patStr f) (substElem f e).contentOf = false ∧
        (hasSub (patStr f) e.contentOf = true → f ∈ (substElem f e).fnsOf)) ∧
      (e.isCodeIsh = true →
        (∀ l ∈ (substElem f e).linesOf, hasSub (patStr f) l = false) ∧
        ((∃ l ∈ e.linesOf, hasSub (patStr f) l = true) → f ∈ (substElem f e).fnsOf)) := by
  refine ⟨putfn_foldl_footnotes _ p, rfl, rfl, ?_⟩
  intro e _
  refine ⟨?_, ?_, ?_, ?_⟩
  · intro hh
    cases e <;> first
      | rfl
      | exact absurd hh Bool.false_ne_true
  · intro ht hfwd
    cases e <;> first
      | rfl
      | exact absurd ht Bool.false_ne_true
      | (simp only [Element.contentOf] at hfwd
         simp only [substElem]
         rw [if_pos hfwd])
  · intro ht hfwd
    cases e <;> first
      | exact absurd ht Bool.false_ne_true
      | (simp only [Element.contentOf] at hfwd
         simp only [substElem]
         rw [if_neg (by simp [hfwd])]
         simp only [Element.contentOf, Element.fnsOf]
         exact ⟨replaceAll_no_occ f _, fun hhit => by rw [if_pos hhit]; exact fnInsert_self _ f⟩)
  · intro hc
    cases e <;> first
      | exact absurd hc Bool.false_ne_true
      | (simp only [substElem, Element.linesOf, Element.fnsOf]
         constructor
         · intro l hl
           obtain ⟨l0, _, rfl⟩ := List.mem_map.mp hl
           exact replaceAll_no_occ f l0
         · intro ⟨l, hl, hhit⟩
           rw [if_pos (List.any_eq_true.mpr ⟨l, hl, hhit⟩)]
           exact fnInsert_self _ f)

/-- C5 counterexample: after `putfootnoteplaceholders`, the body
reference to footnote 1 is replaced, but the footnote element text
still contains the occurrence `1)` — footnote text is never
substituted, while the claim says it is. -/
theorem c5_counterexample :
    (putfootnoteplaceholders spC5).footnotes = [(1, [.Paragraph (pys "also 1)") []])] ∧
      hasSub (patStr 1) (pys "also 1)") = true ∧
      (putfootnoteplaceholders spC5).elements =
        [.Paragraph (pys "see \x1bfootnote1\x1b") [1]] := by
  exact ⟨by decide, by decide, by decide⟩

/-- Witness for C5 on a concrete page and footnote id. -/
theorem c5_witness :
    (putfootnoteplaceholders spC5).footnotes = spC5.footnotes ∧
      hasSub (patStr 1) (substElem 1 eC5).contentOf = false ∧
      (hasSub (patStr 1) eC5.contentOf = true → 1 ∈ (substElem 1 eC5).fnsOf) :=
  ⟨(c5_placeholder_substitution spC5 1).1,
    (((c5_placeholder_substitution spC5 1).2.2.2 eC5 (by decide)).2.2.1 (by decide)
      (by decide)).1,
    (((c5_placeholder_substitution spC5 1).2.2.2 eC5 (by decide)).2.2.1 (by decide)
      (by decide)).2⟩

/-- The upward probe only ever returns values satisfying the check. -/
theorem searchUp_post (check : Nat → Bool) : ∀ (fuel m r : Nat), check m = true →
    searchUp check m fuel = some r → check r = true := by
  intro fuel
  induction fuel with
  | zero => intro m r _ h; exact Option.noConfusion h
  | succ fuel ih =>
    intro m r hm h
    unfold searchUp at h
    by_cases hc : check (m + 1)
    · rw [if_pos hc] at h
      exact ih (m + 1) r hc h
    · rw [if_neg hc] at h
      injection h with h2
      rw [← h2]
      exact hm

/-- The downward probe returns a value satisfying the check whenever
zero satisfies it. -/
theorem searchDown_post (check : Nat → Bool) (h0 : check 0 = true) :
    ∀ m, check (searchDown check m) = true := by
  intro m
  induction m with
  | zero => simpa [searchDown] using h0
  | succ m ih =>
    unfold searchDown
    by_cases hc : check (m + 1)
    · rw [if_pos hc]
      exact hc
    · rw [if_neg hc]
      exact ih

/-- A zero margin trivially satisfies the margin check. -/
theorem checkMargin_zero (lines : List PyStr) : checkMargin lines 0 = true := by
  simp [checkMargin]

/-- C8: every successfully constructed `Page` satisfies the margin
property — each content line has only whitespace before the indent
column or an integer-parsing prefix there — and when the non-blank
content lines do not show at least two distinct leading-whitespace
widths including zero, the indent is 0. -/
theorem pageIndent_post (lines : List PyStr) (ind : Nat)
    (h : pageIndent lines = some ind) :
    checkMargin lines ind = true ∧
      (¬ (2 ≤ (sortedIndents lines).length ∧
          (sortedIndents lines).head? = some 0) → ind = 0) := by
  unfold pageIndent at h
  dsimp only at h
  split at h
  · rename_i hguard
    split at h
    · rename_i hcheck
      refine ⟨searchUp_post _ _ _ _ hcheck h, fun hcon => absurd hguard hcon⟩
    · injection h with h2
      rw [← h2]
      exact ⟨searchDown_post _ (checkMargin_zero _) _, fun hcon => absurd hguard hcon⟩
  · injection h with h2
    rw [← h2]
    exact ⟨checkMargin_zero _, fun _ => rfl⟩

/-- C8: every successfully constructed `Page` satisfies the margin
property — each content line has only whitespace before the indent
column or an integer-parsing prefix there — and when the non-blank
content lines do not show at least two distinct leading-whitespace
widths including zero, the indent is 0. -/
theorem c8_page_margin (raw : PyStr) (p : Page) (h : pageMk raw = some p) :
    checkMargin p.content p.indent = true ∧
      (¬ (2 ≤ (sortedIndents p.content).length ∧
          (sortedIndents p.content).head? = some 0) → p.indent = 0) := by
  unfold pageMk at h
  dsimp only at h
  repeat' split at h
  all_goals try exact Option.noConfusion h
  rename_i hpi
  injection h with h2
  subst h2
  exact pageIndent_post _ _ hpi

/-- Witness for C8 on a concrete page. -/
theorem c8_witness :
    checkMargin (Page.content
        { header := [pys "Header"], footer := [pys "Footer"],
          content := [pys "Body text"], indent := 0 })
      (Page.indent
        { header := [pys "Header"], footer := [pys "Footer"],
          content := [pys "Body text"], indent := 0 }) = true ∧
      (¬ (2 ≤ (sortedIndents (Page.content
            { header := [pys "Header"], footer := [pys "Footer"],
              content := [pys "Body text"], indent := 0 })).length ∧
          (sortedIndents (Page.content
            { header := [pys "Header"], footer := [pys "Footer"],
              content := [pys "Body text"], indent := 0 })).head? = some 0) →
        Page.indent
          { header := [pys "Header"], footer := [pys "Footer"],
            content := [pys "Body text"], indent := 0 } = 0) :=
  c8_page_margin pageC8raw
    { header := [pys "Header"], footer := [pys "Footer"],
      content := [pys "Body text"], indent := 0 } (by decide)

/-- A line with a non-whitespace character splits into at least one word. -/
theorem pySplitWs1_ne_nil (l : PyStr) (hl : ∃ ch ∈ l, isPyWs ch = false) :
    pySplitWs1 l ≠ [] := by
  unfold pySplitWs1
  dsimp only
  have ht : (l.dropWhile isPyWs).isEmpty = false := by
    rw [Bool.eq_false_iff]
    intro hemp
    obtain ⟨ch, hch, hchw⟩ := hl
    exact absurd ((List.dropWhile_eq_nil_iff.mp (List.isEmpty_iff.mp hemp)) ch hch)
      (by rw [hchw]; exact Bool.false_ne_true)
  rw [ht]
  simp only [Bool.false_eq_true, if_false]
  split <;> simp

/-- `Text.addcontent` cannot raise when the appended line holds at least
one word. -/
theorem addcontentStr_isSome (selfc l : PyStr) (hl : ∃ ch ∈ l, isPyWs ch = false) :
    (addcontentStr selfc l).isSome = true := by
  have hfw : ∀ base : PyStr,
      (match pySplitWs1 l with
       | [] => (none : Option PyStr)
       | [_] => some (base ++ pyStrip l)
       | w :: rest :: _ => some (base ++ pyStrip w ++ '\n' :: pyStrip rest)).isSome = true := by
    intro base
    cases hn : pySplitWs1 l with
    | nil => exact absurd hn (pySplitWs1_ne_nil l hl)
    | cons w ws => cases ws <;> rfl
  unfold addcontentStr
  dsimp only
  by_cases hemp : selfc.isEmpty
  · rw [hemp]
    rfl
  · rw [Bool.not_eq_true] at hemp
    rw [hemp]
    simp only [Bool.false_eq_true, if_false]
    by_cases hhb : httpBreak selfc
    · rw [hhb]
      simp only [if_true]
      exact hfw selfc
    · rw [Bool.not_eq_true] at hhb
      rw [hhb]
      simp only [Bool.false_eq_true, if_false]
      by_cases hdash : selfc.getLast? = some '-'
      · rw [if_pos hdash]
        have hsne : pySplitWs selfc ≠ [] :=
          pySplitWs_ne_nil selfc '-' (List.mem_of_mem_getLast? hdash) (by decide)
        cases hg : (pySplitWs selfc).getLast? with
        | none => exact absurd (List.getLast?_eq_none_iff.mp hg) hsne
        | some lw =>
          by_cases hmem : pyLower lw ∈ NOSTITCHING
          · simp only [hmem, if_true]
            exact hfw selfc
          · simp only [hmem, if_false]
            exact hfw selfc.dropLast
      · rw [if_neg hdash]
        rfl

/-- Lowercase letters are not whitespace. -/
theorem isLower_not_ws (ch : Char) (h : ch.isLower = true) : isPyWs ch = false := by
  rw [Bool.eq_false_iff]
  intro hw
  unfold isPyWs at hw
  simp only [Bool.or_eq_true, decide_eq_true_eq] at hw
  rcases hw with ((((rfl | rfl) | rfl) | rfl) | rfl) | rfl <;> simp [Char.isLower] at h

/-- `addcontent` on a text-class element cannot raise when the appended
line holds at least one word. -/
theorem elem_addcontent_isSome (e : Element) (l : PyStr) (he : e.isTextIsh = true)
    (hl : ∃ ch ∈ l, isPyWs ch = false) : (e.addcontent l).isSome = true := by
  cases e <;> first
    | exact absurd he Bool.false_ne_true
    | (simp only [Element.addcontent, Option.isSome_map']
       exact addcontentStr_isSome _ l hl)
    | (simp only [Element.addcontent]
       rfl)

/-- `addcontent` folded over lines that all hold at least one word
cannot raise on a text-class element, and text-class membership is kept. -/
theorem addLinesFold_isSome : ∀ (ls : List PyStr) (e : Element), e.isTextIsh = true →
    (∀ l ∈ ls, ∃ ch ∈ l, isPyWs ch = false) →
    ∃ e2, addLinesFold e ls = some e2 := by
  intro ls
  induction ls with
  | nil => intro e _ _; exact ⟨e, rfl⟩
  | cons l ls2 ih =>
    intro e he hls
    unfold addLinesFold
    cases ha : e.addcontent l with
    | none =>
      have := elem_addcontent_isSome e l he (hls l (by simp))
      rw [ha] at this
      exact absurd this (by simp)
    | some e2 =>
      have he2 : e2.isTextIsh = true := by
        cases e <;> first
          | exact absurd he Bool.false_ne_true
          | (simp only [Element.addcontent, Option.map_eq_some'] at ha
             obtain ⟨c2, _, rfl⟩ := ha
             rfl)
          | exact Option.noConfusion ha
      exact ih e2 he2 (fun l2 hl2 => hls l2 (by simp [hl2]))

/-- The footnote-merge loop raises exactly on a key already present,
and otherwise appends. -/
theorem footMergeLoop_spec :
    ∀ (new acc : List (Nat × List Element)),
      (acc.map Prod.fst).Nodup → (new.map Prod.fst).Nodup →
      ((footMergeLoop acc new = none ↔
        ¬ (acc.map Prod.fst ++ new.map Prod.fst).Nodup) ∧
       ∀ r, footMergeLoop acc new = some r → r = acc ++ new) := by
  intro new
  induction new with
  | nil =>
    intro acc hacc _
    refine ⟨⟨fun h => Option.noConfusion h, fun hnd => absurd (by simpa using hacc) hnd⟩, ?_⟩
    intro r h
    injection h with h2
    rw [← h2, List.append_nil]
  | cons kv new2 ih =>
    intro acc hacc hnew
    obtain ⟨k, v⟩ := kv
    have hnew' : k ∉ new2.map Prod.fst ∧ (new2.map Prod.fst).Nodup := by
      rw [List.map_cons, List.nodup_cons] at hnew
      exact hnew
    unfold footMergeLoop
    by_cases hmem : k ∈ acc.map Prod.fst
    · rw [if_pos hmem]
      refine ⟨⟨fun _ => ?_, fun _ => rfl⟩, fun r h => Option.noConfusion h⟩
      intro hnd
      rw [List.nodup_append] at hnd
      exact hnd.2.2 hmem (by simp)
    · rw [if_neg hmem]
      have hacc2 : ((acc ++ [(k, v)]).map Prod.fst).Nodup := by
        rw [List.map_append, List.nodup_append]
        refine ⟨hacc, by simp, ?_⟩
        intro a ha hb
        simp only [List.map_cons, List.map_nil, List.mem_singleton] at hb
        subst hb
        exact hmem ha
      obtain ⟨ihiff, ihsome⟩ := ih (acc ++ [(k, v)]) hacc2 hnew'.2
      have heq : (acc ++ [(k, v)]).map Prod.fst ++ new2.map Prod.fst =
          acc.map Prod.fst ++ ((k, v) :: new2).map Prod.fst := by
        simp
      refine ⟨?_, ?_⟩
      · rw [ihiff, heq]
      · intro r h
        rw [ihsome r h, List.append_assoc]
        rfl

/-- `mergeFinish` raises exactly on a shared footnote id, and otherwise
concatenates elements and footnotes. -/
theorem mergeFinish_wrap (merge page : SPage) (m2 : SPage) (pe : List Element)
    (hfn : m2.footnotes = merge.footnotes)
    (hne : m2.elements ≠ [] ∨ pe ≠ [])
    (hmf : (merge.footnotes.map Prod.fst).Nodup)
    (hpf : (page.footnotes.map Prod.fst).Nodup) :
    (mergeFinish m2 pe page.footnotes = none ↔
      ¬ (merge.footnotes.map Prod.fst ++ page.footnotes.map Prod.fst).Nodup) ∧
    ∀ r, mergeFinish m2 pe page.footnotes = some r →
      r.elements ≠ [] ∧
      r.footnotes.map Prod.fst =
        merge.footnotes.map Prod.fst ++ page.footnotes.map Prod.fst := by
  obtain ⟨hiff, hsome⟩ :=
    footMergeLoop_spec page.footnotes m2.footnotes (hfn ▸ hmf) hpf
  unfold mergeFinish
  cases hf : footMergeLoop m2.footnotes page.footnotes with
  | none =>
    refine ⟨⟨fun _ => ?_, fun _ => rfl⟩, fun r h => Option.noConfusion h⟩
    rw [← hfn]
    exact hiff.mp hf
  | some fns =>
    refine ⟨⟨fun h => Option.noConfusion h, fun hnd => ?_⟩, ?_⟩
    · rw [← hfn] at hnd
      have := hiff.mpr hnd
      rw [hf] at this
      exact Option.noConfusion this
    · intro r h
      injection h with h2
      rw [← h2]
      refine ⟨?_, ?_⟩
      · show m2.elements ++ pe ≠ []
        intro hcontra
        rcases List.append_eq_nil.mp hcontra with ⟨h1, h2'⟩
        rcases hne with hne | hne
        · exact hne h1
        · exact hne h2'
      · show fns.map Prod.fst = _
        rw [hsome fns hf, ← hfn]
        simp

/-- One `mergepages` iteration raises exactly on a shared footnote id,
provided both pages are structurally sane (nonempty element lists, a
nonempty leading strict `Paragraph` content, word-bearing lines in a
leading strict `Code`, duplicate-free per-page ids). -/
theorem mergeStep_spec (merge page : SPage)
    (hme : merge.elements ≠ [])
    (hmf : (merge.footnotes.map Prod.fst).Nodup)
    (hpe : page.elements ≠ [])
    (hpar : ∀ c fns erest, page.elements = Element.Paragraph c fns :: erest → c ≠ [])
    (hcode : ∀ ls fns erest, page.elements = Element.Code ls fns :: erest →
      ∀ l ∈ ls, ∃ ch ∈ l, isPyWs ch = false)
    (hpf : (page.footnotes.map Prod.fst).Nodup) :
    (mergeStep merge page = none ↔
      ¬ (merge.footnotes.map Prod.fst ++ page.footnotes.map Prod.fst).Nodup) ∧
    ∀ r, mergeStep merge page = some r →
      r.elements ≠ [] ∧
      r.footnotes.map Prod.fst =
        merge.footnotes.map Prod.fst ++ page.footnotes.map Prod.fst := by
  unfold mergeStep
  split
  case _ hlast => exact absurd (List.getLast?_eq_none_iff.mp hlast) hme
  case _ lastE hlast =>
  by_cases hc1 : lastE.isCodeIsh
  · rw [if_pos hc1]
    cases hpe2 : page.elements with
    | nil => exact absurd hpe2 hpe
    | cons e0 erest =>
      dsimp only
      by_cases hcs : e0.isCodeStrict
      · rw [if_pos hcs]
        exact mergeFinish_wrap merge page _ _ rfl (Or.inl (by simp)) hmf hpf
      · rw [if_neg hcs]
        exact mergeFinish_wrap merge page _ _ rfl (Or.inl hme) hmf hpf
  · rw [if_neg hc1]
    by_cases hc2 : lastE.isTextIsh
    · rw [if_pos hc2]
      cases hpe2 : page.elements with
      | nil => exact absurd hpe2 hpe
      | cons e0 erest =>
        cases e0 with
        | Paragraph c f =>
          dsimp only
          cases hcnil : c with
          | nil => exact absurd hcnil (hpar c f erest hpe2)
          | cons ch ctail =>
            dsimp only
            by_cases hlow : ch.isLower
            · rw [if_pos hlow]
              cases hadd : lastE.addcontent (ch :: ctail) with
              | none =>
                have := elem_addcontent_isSome lastE (ch :: ctail) hc2
                  ⟨ch, by simp, isLower_not_ws ch hlow⟩
                rw [hadd] at this
                exact absurd this (by simp)
              | some la2 =>
                dsimp only
                exact mergeFinish_wrap merge page _ _ rfl (Or.inl (by simp)) hmf hpf
            · rw [if_neg hlow]
              exact mergeFinish_wrap merge page _ _ rfl (Or.inl hme) hmf hpf
        | Code ls f =>
          dsimp only [Element.linesOf, Element.fnsOf]
          by_cases hvd : lastE.isVDIsh
          · rw [if_pos (by rw [hvd]; rfl)]
            cases hfold : addLinesFold lastE ls with
            | none =>
              obtain ⟨e2, he2⟩ := addLinesFold_isSome ls lastE hc2
                (hcode ls f erest hpe2)
              rw [hfold] at he2
              exact Option.noConfusion he2
            | some e2 =>
              exact mergeFinish_wrap merge page _ _ rfl (Or.inl (by simp)) hmf hpf
          · rw [if_neg (by rw [Bool.not_eq_true] at hvd; rw [hvd]; simp)]
            exact mergeFinish_wrap merge page _ _ rfl (Or.inl hme) hmf hpf
        | _ =>
          first
            | (dsimp only
               rw [if_neg (by simp [Element.isCodeStrict])]
               exact mergeFinish_wrap merge page _ _ rfl (Or.inl hme) hmf hpf)
    · rw [if_neg hc2]
      exact mergeFinish_wrap merge page _ _ rfl (Or.inl hme) hmf hpf

/-- The `mergepages` fold raises exactly when an id repeats across the
accumulated footnotes and those of the remaining pages. -/
theorem mergeLoop_spec :
    ∀ (rest : List SPage) (macc : SPage),
      macc.elements ≠ [] → (macc.footnotes.map Prod.fst).Nodup →
      (∀ q ∈ rest, q.elements ≠ [] ∧
        (∀ c fns erest, q.elements = Element.Paragraph c fns :: erest → c ≠ []) ∧
        (∀ ls fns erest, q.elements = Element.Code ls fns :: erest →
          ∀ l ∈ ls, ∃ ch ∈ l, isPyWs ch = false) ∧
        (q.footnotes.map Prod.fst).Nodup) →
      (mergeLoop macc rest = none ↔
        ¬ (macc.footnotes.map Prod.fst ++
            (rest.map (fun q => q.footnotes.map Prod.fst)).flatten).Nodup) := by
  intro rest
  induction rest with
  | nil =>
    intro macc _ hmf _
    refine ⟨fun h => Option.noConfusion h, fun hnd => absurd (by simpa using hmf) hnd⟩
  | cons page rest2 ih =>
    intro macc hme hmf hready
    obtain ⟨hpe, hpar, hcode, hpf⟩ := hready page (by simp)
    obtain ⟨hiff, hsome⟩ := mergeStep_spec macc page hme hmf hpe hpar hcode hpf
    unfold mergeLoop
    cases hs : mergeStep macc page with
    | none =>
      have hdup := hiff.mp hs
      refine ⟨fun _ => ?_, fun _ => rfl⟩
      intro hnd
      apply hdup
      refine hnd.sublist ?_
      have hj : ((page :: rest2).map (fun q => q.footnotes.map Prod.fst)).flatten =
          page.footnotes.map Prod.fst ++
            (rest2.map (fun q => q.footnotes.map Prod.fst)).flatten := by
        simp
      rw [hj, ← List.append_assoc]
      exact List.sublist_append_left _ _
    | some m2 =>
      obtain ⟨hm2e, hm2keys⟩ := hsome m2 hs
      have hnd0 : (macc.footnotes.map Prod.fst ++ page.footnotes.map Prod.fst).Nodup := by
        by_contra hcon
        have := hiff.mpr hcon
        rw [hs] at this
        exact Option.noConfusion this
      have hm2nd : (m2.footnotes.map Prod.fst).Nodup := by
        rw [hm2keys]
        exact hnd0
      have hrec := ih m2 hm2e hm2nd (fun q hq => hready q (by simp [hq]))
      rw [hrec, hm2keys]
      have heq : (macc.footnotes.map Prod.fst ++ page.footnotes.map Prod.fst) ++
          (rest2.map (fun q => q.footnotes.map Prod.fst)).flatten =
          macc.footnotes.map Prod.fst ++
            ((page :: rest2).map (fun q => q.footnotes.map Prod.fst)).flatten := by
        simp
      rw [heq]

/-- C3 amended: for structurally sane pages — nonempty element lists, a
nonempty content on a leading strict `Paragraph`, word-bearing lines in
a leading strict `Code`, duplicate-free per-page ids — `mergepages`
raises if and only if two merged pages share a footnote id, i.e. the
concatenation of all pages' footnote ids has a duplicate.  (Without the
sanity conditions the claim fails: structurally degenerate pages make
the boundary-repair code raise `IndexError` even with disjoint ids.) -/
theorem c3_mergepages_raises_iff_shared (p0 : SPage) (rest : List SPage)
    (hready : ∀ q ∈ p0 :: rest, q.elements ≠ [] ∧
      (∀ c fns erest, q.elements = Element.Paragraph c fns :: erest → c ≠ []) ∧
      (∀ ls fns erest, q.elements = Element.Code ls fns :: erest →
        ∀ l ∈ ls, ∃ ch ∈ l, isPyWs ch = false) ∧
      (q.footnotes.map Prod.fst).Nodup) :
    mergepages (p0 :: rest) = none ↔
      ¬ (((p0 :: rest).map (fun q => q.footnotes.map Prod.fst)).flatten).Nodup := by
  obtain ⟨hp0e, _, _, hp0f⟩ := hready p0 (by simp)
  have := mergeLoop_spec rest p0 hp0e hp0f (fun q hq => hready q (by simp [hq]))
  unfold mergepages
  rw [this]
  have heq : p0.footnotes.map Prod.fst ++
      (rest.map (fun q => q.footnotes.map Prod.fst)).flatten =
      ((p0 :: rest).map (fun q => q.footnotes.map Prod.fst)).flatten := by
    simp
  rw [heq]

/-- C3 counterexample: two reachable structured pages (each one a page
whose whole content is its footnote region, so the element list is
empty) with disjoint footnote ids 1 and 2 still make `mergepages`
raise — the boundary-repair code indexes `merge.elements[-1]` on an
empty list — while the claim says disjoint ids never raise. -/
theorem c3_counterexample :
    (mkStructuredPage [pys "  1) a"] 0 (tocMatcherInit []) 0).map Prod.fst = some spC3a ∧
      (mkStructuredPage [pys "  2) b"] 0 (tocMatcherInit []) 0).map Prod.fst = some spC3b ∧
      spC3a.footnotes.map Prod.fst = [1] ∧
      spC3b.footnotes.map Prod.fst = [2] ∧
      mergepages [spC3a, spC3b] = none := by
  exact ⟨by decide, by decide, by decide, by decide, by decide⟩

/-- Witness for C3 at two concrete sane pages sharing footnote id 3. -/
theorem c3_witness :
    mergepages [spC3c, spC3d] = none ↔
      ¬ ((([spC3c, spC3d]).map (fun q => q.footnotes.map Prod.fst)).flatten).Nodup :=
  c3_mergepages_raises_iff_shared spC3c [spC3d] (by
    intro q hq
    simp only [List.mem_cons, List.not_mem_nil, or_false] at hq
    rcases hq with rfl | rfl
    · refine ⟨by decide, ?_, ?_, by decide⟩
      · intro c fns erest h
        simp [spC3c] at h
      · intro ls fns erest h
        simp [spC3c] at h
    · refine ⟨by decide, ?_, ?_, by decide⟩
      · intro c fns erest h
        simp [spC3d] at h
      · intro ls fns erest h
        simp [spC3d] at h)

/-- Appending one element increases the count by one. -/
theorem pushE_len (st : LineParser) (tm : TOCMatcher) (e : Element) (b : Bool)
    (r : LineParser × TOCMatcher) (h : pushE st tm e b = some r) :
    r.1.elements.length = st.elements.length + 1 := by
  injection h with h2
  rw [← h2]
  simp

/-- Replacing the last element keeps the count. -/
theorem replE_len (st : LineParser) (tm : TOCMatcher) (e : Element) (b : Bool)
    (r : LineParser × TOCMatcher) (hne : st.elements ≠ [])
    (h : replE st tm e b = some r) :
    r.1.elements.length = st.elements.length := by
  injection h with h2
  rw [← h2]
  have := List.length_pos.mpr hne
  simp only [replE]
  show (st.elements.dropLast ++ [e]).length = st.elements.length
  rw [List.length_append, List.length_dropLast]
  simp
  omega

/-- A list with a known last element is nonempty. -/
theorem getLast?_some_ne_nil {l : List Element} {e : Element}
    (h : l.getLast? = some e) : l ≠ [] := by
  intro hnil
  rw [hnil] at h
  exact Option.noConfusion h

/-- The tail dispatch appends exactly one element unless it extends a
previous code block, provided no element is open for continuation. -/
theorem parseRegular_count (st : LineParser) (tm : TOCMatcher) (line : PyStr)
    (hinel : st.inelement = false) (r : LineParser × TOCMatcher)
    (h : parseRegular st tm line = some r) : C7Post st r := by
  unfold parseRegular at h
  dsimp only at h
  rw [hinel] at h
  simp only [Bool.false_and, Bool.false_eq_true, if_false] at h
  split at h
  · split at h
    case _ ls f heq =>
      right
      exact ⟨replE_len _ _ _ _ _ (getLast?_some_ne_nil heq) h, _, heq, rfl⟩
    case _ n ls f heq =>
      right
      exact ⟨replE_len _ _ _ _ _ (getLast?_some_ne_nil heq) h, _, heq, rfl⟩
    case _ =>
      left
      exact pushE_len _ _ _ _ _ h
  · split at h <;> split at h <;>
      (left
       injection h with h2
       rw [← h2]
       simp)

/-- The indented-text block appends exactly one element unless it
extends a previous code block, provided no element is open. -/
theorem parseIndentedBlock_count (st : LineParser) (tm : TOCMatcher) (line : PyStr)
    (hinel : st.inelement = false) (r : LineParser × TOCMatcher)
    (h : parseIndentedBlock st tm line = some r) : C7Post st r := by
  unfold parseIndentedBlock at h
  dsimp only at h
  rw [hinel] at h
  simp only [Bool.false_eq_true, if_false, Bool.false_and] at h
  split at h
  · split at h
    · left
      exact pushE_len _ _ _ _ _ h
    · split at h
      · split at h
        case _ ls f heq =>
          right
          exact ⟨replE_len _ _ _ _ _ (getLast?_some_ne_nil heq) h, _, heq, rfl⟩
        case _ n ls f heq =>
          right
          exact ⟨replE_len _ _ _ _ _ (getLast?_some_ne_nil heq) h, _, heq, rfl⟩
        case _ =>
          left
          exact pushE_len _ _ _ _ _ h
      · exact parseRegular_count st tm line hinel r h
  · exact parseRegular_count st tm line hinel r h

/-- The element-count outcome only depends on the element list. -/
theorem C7Post_congr (st st1 : LineParser) (r : LineParser × TOCMatcher)
    (he : st1.elements = st.elements) (hp : C7Post st1 r) : C7Post st r := by
  unfold C7Post at hp ⊢
  rw [he] at hp
  exact hp

/-- The value-definition chain appends one element or falls through to
the indented-block handler, provided no element is open. -/
theorem parseVDChain_count (st : LineParser) (tm : TOCMatcher) (v c : PyStr)
    (groups : List PyStr) (line : PyStr) (hinel : st.inelement = false)
    (r : LineParser × TOCMatcher)
    (h : parseVDChain st tm v c groups line = some r) : C7Post st r := by
  unfold parseVDChain at h
  iterate 10 (all_goals (try split at h))
  all_goals first
    | exact Option.noConfusion h
    | (left
       exact pushE_len _ _ _ _ _ h)
    | exact parseIndentedBlock_count st tm line hinel r h

/-- The list-item / value-definition dispatch appends one element or falls
through to the indented-block handler, provided no element is open. -/
theorem parseListOrVD_count (st : LineParser) (tm : TOCMatcher)
    (splits groups : List PyStr) (line : PyStr) (hinel : st.inelement = false)
    (r : LineParser × TOCMatcher)
    (h : parseListOrVD st tm splits groups line = some r) : C7Post st r := by
  unfold parseListOrVD at h
  iterate 8 (all_goals (try split at h))
  all_goals first
    | exact Option.noConfusion h
    | (left
       exact pushE_len _ _ _ _ _ h)
    | exact parseVDChain_count st tm _ _ groups line hinel r h
    | exact parseIndentedBlock_count st tm line hinel r h

/-- `_parselinewithoutindent` appends exactly one element unless it
extends a previous code block, provided no element is open. -/
theorem parseNoIndent_count (st : LineParser) (tm : TOCMatcher) (line : PyStr)
    (hinel : st.inelement = false) (r : LineParser × TOCMatcher)
    (h : parseNoIndent st tm line = some r) : C7Post st r := by
  unfold parseNoIndent at h
  dsimp only at h
  generalize pySplitWs1 line = sp at h
  generalize groupwords line = gr at h
  split at h
  · exact Option.noConfusion h
  case _ st1 heq =>
    have hst1 : st1.elements = st.elements ∧ st1.inelement = false := by
      split at heq
      · injection heq with h2
        rw [← h2]
        exact ⟨rfl, hinel⟩
      · split at heq
        · exact Option.noConfusion heq
        · split at heq <;>
            (injection heq with h2
             rw [← h2]
             exact ⟨rfl, hinel⟩)
    apply C7Post_congr st st1 r hst1.1
    by_cases hc1 : isPref (pys "Forward references: ") (pyLstrip line) = true
    · rw [if_pos hc1] at h
      left
      exact pushE_len _ _ _ _ _ h
    · rw [if_neg hc1] at h
      by_cases hc2 : isPref (pys "o,u,x,X ") line = true
      · rw [if_pos hc2] at h
        iterate 3 (all_goals (try split at h))
        all_goals first
          | exact Option.noConfusion h
          | (left
             exact pushE_len _ _ _ _ _ h)
      · rw [if_neg hc2] at h
        generalize matchtitleM tm line = mt at h
        rcases mt with _ | ⟨tb, tm2⟩
        · exact Option.noConfusion h
        · iterate 5 (all_goals (try split at h))
          all_goals first
            | exact Option.noConfusion h
            | (left
               exact pushE_len _ _ _ _ _ h)
            | exact parseListOrVD_count st1 _ sp gr line hst1.2 r h

/-- `_parselinewithindent` appends exactly one element unless it extends
a previous code block, provided no element is open. -/
theorem parseWithIndent_count (st : LineParser) (tm : TOCMatcher) (line : PyStr)
    (indent : Nat) (hinel : st.inelement = false) (r : LineParser × TOCMatcher)
    (h : parseWithIndent st tm line indent = some r) : C7Post st r := by
  unfold parseWithIndent at h
  split at h
  · exact parseNoIndent_count st tm _ hinel r h
  · split at h
    · exact Option.noConfusion h
    · dsimp only at h
      split at h
      · left
        exact pushE_len _ _ _ _ _ h
      · split at h
        · exact Option.noConfusion h
        · left
          have hp := pushE_len _ _ _ _ _ h
          exact hp

/-- C7 as stated is false: the non-blank line of seven spaces and a word,
fed with no element open for continuation and a previous code block on
the output, is not one of the mode-toggling marker lines, yet `parseline`
appends zero new elements (it extends the code block in place). -/
theorem c7_counterexample :
    lpC7.inelement = false ∧
    (pys "       y").isEmpty = false ∧
    pys "       y" ∉ [pys "Syntax", pys "Constraints", pys "Description", pys "Semantics"] ∧
    ∃ r, parseline lpC7 (tocMatcherInit []) (pys "       y") none = some r ∧
      r.1.elements.length = lpC7.elements.length := by
  refine ⟨rfl, rfl, by decide, _, rfl, rfl⟩

/-- C7 (amended): for every non-blank line handled while no element is
open for continuation, whenever `parseline` succeeds it appends exactly
one new element — except when the line extends a previous code block
(the last element already on the output is code-like), in which case the
element count is unchanged; marker lines are not exempt. -/
theorem c7_classifier_one_element (st : LineParser) (tm : TOCMatcher) (line : PyStr)
    (hinel : st.inelement = false) (hne : line ≠ [])
    (r : LineParser × TOCMatcher) (h : parseline st tm line none = some r) :
    r.1.elements.length = st.elements.length + 1 ∨
    (r.1.elements.length = st.elements.length ∧
      ∃ e, st.elements.getLast? = some e ∧ e.isCodeIsh = true) := by
  have hc : C7Post st r := by
    unfold parseline at h
    dsimp only at h
    rcases line with _ | ⟨ch, cs⟩
    · exact absurd rfl hne
    · rw [if_neg (fun hh => Bool.noConfusion hh)] at h
      split at h
      · exact parseNoIndent_count _ _ _ hinel r h
      · exact parseWithIndent_count _ _ _ _ hinel r h
  exact hc

/-- The amended C7 at a concrete input: a fresh parser fed one plain
sentence line appends exactly one element. -/
theorem c7_witness :
    (LineParser.init 0).inelement = false ∧ pys "Hello." ≠ ([] : PyStr) ∧
    ∃ r, parseline (LineParser.init 0) (tocMatcherInit []) (pys "Hello.") none = some r ∧
      (r.1.elements.length = (LineParser.init 0).elements.length + 1 ∨
        (r.1.elements.length = (LineParser.init 0).elements.length ∧
          ∃ e, (LineParser.init 0).elements.getLast? = some e ∧ e.isCodeIsh = true)) := by
  refine ⟨rfl, by decide, _, rfl, ?_⟩
  exact c7_classifier_one_element (LineParser.init 0) (tocMatcherInit []) (pys "Hello.")
    rfl (by decide) _ rfl
